import Mathlib

/-!
Verification development for the keenetic-routes repository.

The Go source is shallowly embedded: pure functions become Lean functions,
the stateful HTTP session client becomes explicit state passing over a
request/response oracle, machine integers become Nat/Int with explicit
modular arithmetic, and fallible code returns Except/Option.

The Go standard-library helpers the code relies on (strings.TrimSpace,
strings.ToLower, strconv.Atoi, strconv.ParseFloat, net.ParseIP,
net.ParseCIDR, net.IP.To4, net.IP.String, net.IPMask.Size, crypto/md5,
crypto/sha256) are modelled in the Go namespace below, following the
algorithms of the Go standard library.  Numeric literals fed to the
ParseFloat model are given exact rational semantics (no float64 rounding);
overflow beyond the float64 range is modelled as a parse failure, matching
the ErrRange behaviour the calling code treats as failure.
-/

deriving instance DecidableEq for Except

namespace Go

/-- Characters for which Go's unicode.IsSpace returns true (the Unicode
White_Space property, as used by strings.TrimSpace). -/
def isSpace (c : Char) : Bool :=
  let v := c.toNat
  (v == 0x20) || (0x9 ≤ v && v ≤ 0xD) || (v == 0x85) || (v == 0xA0) ||
  (v == 0x1680) || (0x2000 ≤ v && v ≤ 0x200A) || (v == 0x2028) || (v == 0x2029) ||
  (v == 0x202F) || (v == 0x205F) || (v == 0x3000)

/-- Drop leading white space from a character list. -/
def trimLeftList (l : List Char) : List Char := l.dropWhile isSpace

/-- Drop trailing white space from a character list. -/
def trimRightList (l : List Char) : List Char :=
  (l.reverse.dropWhile isSpace).reverse

/-- Model of Go's strings.TrimSpace. -/
def goTrimSpace (s : String) : String :=
  ⟨trimRightList (trimLeftList s.data)⟩

/-- Model of Go's strings.ToLower restricted to ASCII case mapping; the
inputs compared against the lowered result in this code base are plain
ASCII keywords, for which this agrees with the Unicode mapping. -/
def goToLower (s : String) : String :=
  ⟨s.data.map (fun c =>
    if 65 ≤ c.toNat ∧ c.toNat ≤ 90 then Char.ofNat (c.toNat + 32) else c)⟩

/-- Decimal digit printer used to model Go's integer formatting (uitoa
and the %d verb), accumulator form; the fuel argument is structural and
always sufficient when at least the number itself, since the number
shrinks by a factor of ten per step. -/
def natDecAux : Nat → Nat → List Char → List Char
  | 0, _, acc => acc
  | fuel + 1, n, acc =>
    let d := Char.ofNat (48 + n % 10)
    if n < 10 then d :: acc
    else natDecAux fuel (n / 10) (d :: acc)

/-- Decimal rendering of a natural number. -/
def natDec (n : Nat) : String := ⟨natDecAux (n + 1) n []⟩

/-- Lowercase hexadecimal digit for a value below 16. -/
def hexDigitChar (d : Nat) : Char :=
  if d < 10 then Char.ofNat (48 + d) else Char.ofNat (87 + d)

/-- Lowercase hexadecimal printer (no leading zeros; 0 prints as 0),
accumulator form with structural fuel, matching Go's appendHex. -/
def natHexAux : Nat → Nat → List Char → List Char
  | 0, _, acc => acc
  | fuel + 1, n, acc =>
    let d := hexDigitChar (n % 16)
    if n < 16 then d :: acc
    else natHexAux fuel (n / 16) (d :: acc)

/-- Lowercase hexadecimal rendering of a natural number. -/
def natHex (n : Nat) : String := ⟨natHexAux (n + 1) n []⟩

/-- Two-digit lowercase hexadecimal rendering of a byte. -/
def byteHex (b : Nat) : String :=
  ⟨[hexDigitChar (b / 16 % 16), hexDigitChar (b % 16)]⟩

/-- Numeric value of a list of decimal digit characters. -/
def decValue (l : List Char) : Nat :=
  l.foldl (fun a c => a * 10 + (c.toNat - 48)) 0

/-- Value of a hexadecimal digit character, if it is one. -/
def hexVal (c : Char) : Option Nat :=
  let v := c.toNat
  if 48 ≤ v ∧ v ≤ 57 then some (v - 48)
  else if 97 ≤ v ∧ v ≤ 102 then some (v - 87)
  else if 65 ≤ v ∧ v ≤ 70 then some (v - 55)
  else none

/-- Whether a character is an ASCII hexadecimal digit. -/
def isHexDigit (c : Char) : Bool := (hexVal c).isSome

/-- Model of Go's strconv.Atoi: ParseInt base 10 into a 64-bit int;
optional single sign, at least one decimal digit, no underscores, range
checked against the signed 64-bit bounds. -/
def goAtoi (s : String) : Option Int :=
  match s.data with
  | [] => none
  | c :: rest =>
    let p : Bool × List Char :=
      if c = '-' then (true, rest)
      else if c = '+' then (false, rest)
      else (false, c :: rest)
    let neg := p.1
    let digits := p.2
    if digits = [] ∨ ¬ digits.all Char.isDigit then none
    else
      let n := decValue digits
      if neg then
        if n ≤ 2 ^ 63 then some (-(n : Int)) else none
      else
        if n ≤ 2 ^ 63 - 1 then some (n : Int) else none

/-- Result of the ParseFloat model: the binary64 value the literal
rounds to (sign, mantissa below 2 to the 53, binary exponent, so the
magnitude is mant times 2 to the exp), an infinity, or a NaN.  The
rounding of strconv (round to nearest, ties to even, subnormals
included, underflow to zero without error) is applied by goParseFloat
below, so a mantissa of 0 means the literal rounded to zero. -/
inductive GoFloat where
  | finite (neg : Bool) (mant : Nat) (exp : Int)
  | inf (neg : Bool)
  | nan
  deriving DecidableEq

/-- Whether the parsed float compares unequal to zero under Go semantics
(NaN compares unequal to everything, so f != 0 is true for NaN; a
rounded finite value is zero exactly when its mantissa is, which covers
literals that underflow to zero). -/
def GoFloat.nonzeroB : GoFloat → Bool
  | .finite _ mant _ => decide (mant ≠ 0)
  | .inf _ => true
  | .nan => true

/-- Whether f == math.Trunc(f) holds, and the value of the Go conversion
int(f) when it does.  A binary64 value with nonnegative exponent is its
own truncation; with negative exponent it is integral exactly when the
mantissa is divisible by 2 to the minus exp, and then its magnitude is
below 2 to the 53, in range.  NaN compares unequal to its truncation.
A value outside int64 range (including the infinities, whose Trunc is
themselves) converts to the minimum int64, as the gc code generator
produces on amd64. -/
def GoFloat.truncIntVal : GoFloat → Option Int
  | .finite neg mant exp =>
    if 0 ≤ exp then
      let v : Int := (if neg then -(mant : Int) else (mant : Int)) * 2 ^ exp.toNat
      some (if v < -(2 ^ 63) ∨ 2 ^ 63 ≤ v then -(2 ^ 63) else v)
    else
      let d : Nat := 2 ^ (-exp).toNat
      if mant % d = 0 then
        some (if neg then -((mant / d : Nat) : Int) else ((mant / d : Nat) : Int))
      else none
  | .inf _ => some (-(2 ^ 63))
  | .nan => none

/-- Go's underscoreOK from strconv: underscores may appear only between
digits or between a base prefix and a digit. -/
def underscoreOKAux (hex : Bool) : List Char → Char → Bool
  | [], saw => saw ≠ '_'
  | c :: rest, saw =>
    if c.isDigit ∨ (hex ∧ isHexDigit c) then underscoreOKAux hex rest '0'
    else if c = '_' then
      if saw = '0' then underscoreOKAux hex rest '_' else false
    else if saw = '_' then false
    else underscoreOKAux hex rest '!'

/-- Underscore placement check for a numeric literal string. -/
def underscoreOK (s : String) : Bool :=
  let l := s.data
  let l := match l with
    | c :: rest => if c = '-' ∨ c = '+' then rest else l
    | _ => l
  match l with
  | '0' :: x :: rest =>
    if x = 'x' ∨ x = 'X' then underscoreOKAux true rest '0'
    else underscoreOKAux false l '^'
  | _ => underscoreOKAux false l '^'

/-- Exponent digit accumulation with Go's cap: readFloat stops growing the
exponent once it reaches 10000, which preserves the overflow/underflow
classification while keeping values finite. -/
def expValue (l : List Char) : Nat :=
  l.foldl (fun a c => if a < 10000 then a * 10 + (c.toNat - 48) else a) 0

/-- The smallest magnitude rounding to infinity in float64, which
strconv reports as ErrRange; the literal is (2 to the 54 minus 1) times
2 to the 970, written out so that evaluation never unfolds a large
power. -/
def float64OverflowNat : Nat :=
  179769313486231580793728971405303415079934132710037826936173778980444968292764750946649017977587207096330286416692887910946555547851940402630657488671505820681908902000708383676273854845817711531764475730270069855571366959622842914819860834936475292719074168444365510704342711559699508093042880177904174497792

/-- Whether mant times base to the exp reaches the float64 overflow
threshold, compared exactly with integer arithmetic. -/
def overflowsFloat64 (base mant : Nat) (exp : Int) : Bool :=
  if 0 ≤ exp then float64OverflowNat ≤ mant * base ^ exp.toNat
  else float64OverflowNat * base ^ (-exp).toNat ≤ mant

/-- Parse an optional sign, returning (negative, rest). -/
def splitSign (l : List Char) : Bool × List Char :=
  match l with
  | '-' :: rest => (true, rest)
  | '+' :: rest => (false, rest)
  | _ => (false, l)

/-- Decimal mantissa/exponent grammar of strconv.ParseFloat (underscores
already removed): digits [. digits] [e|E [sign] digits], at least one
mantissa digit, exponent digits required when the marker is present. -/
def parseDecMantissa (l : List Char) : Option (Nat × Int) :=
  let intPart := l.takeWhile Char.isDigit
  let rest1 := l.dropWhile Char.isDigit
  let p : List Char × List Char :=
    match rest1 with
    | '.' :: r =>
      (r.takeWhile Char.isDigit, r.dropWhile Char.isDigit)
    | _ => ([], rest1)
  let fracPart := p.1
  let rest2 := p.2
  if intPart = [] ∧ fracPart = [] then none
  else
    let mant : Nat := decValue (intPart ++ fracPart)
    let scale : Int := -(fracPart.length : Int)
    match rest2 with
    | [] => some (mant, scale)
    | e :: r =>
      if e = 'e' ∨ e = 'E' then
        let sp := splitSign r
        if sp.2 = [] ∨ ¬ sp.2.all Char.isDigit then none
        else
          let ev : Int := if sp.1 then -(expValue sp.2 : Int) else (expValue sp.2 : Int)
          some (mant, scale + ev)
      else none

/-- Numeric value of a list of hexadecimal digit characters. -/
def hexValue (l : List Char) : Nat :=
  l.foldl (fun a c => a * 16 + ((hexVal c).getD 0)) 0

/-- Hexadecimal float grammar of strconv.ParseFloat (after the 0x prefix,
underscores removed): hexdigits [. hexdigits] p|P [sign] digits; the
binary exponent is mandatory. -/
def parseHexMantissa (l : List Char) : Option (Nat × Int) :=
  let intPart := l.takeWhile isHexDigit
  let rest1 := l.dropWhile isHexDigit
  let p : List Char × List Char :=
    match rest1 with
    | '.' :: r => (r.takeWhile isHexDigit, r.dropWhile isHexDigit)
    | _ => ([], rest1)
  let fracPart := p.1
  let rest2 := p.2
  if intPart = [] ∧ fracPart = [] then none
  else
    match rest2 with
    | e :: r =>
      if e = 'p' ∨ e = 'P' then
        let sp := splitSign r
        if sp.2 = [] ∨ ¬ sp.2.all Char.isDigit then none
        else
          let mant : Nat := hexValue (intPart ++ fracPart)
          let scale : Int := -(4 * fracPart.length : Int)
          let ev : Int := if sp.1 then -(expValue sp.2 : Int) else (expValue sp.2 : Int)
          some (mant, scale + ev)
      else none
    | _ => none

/-- 2 to the 1075, the reciprocal of the largest magnitude strconv
rounds to zero (half the smallest subnormal); written out so that
evaluation never unfolds a large power. -/
def float64UnderflowNat : Nat :=
  404804506614621236704990693437834614099113299528284236713802716054860679135990693783920767402874248990374155728633623822779617474771586953734026799881477019843034848553132722728933815484186432682479535356945490137124014966849385397236206711298319112681620113024717539104666829230461005064372655017292012526615415482186989568

/-- Whether mant times base to the exp is at most 2 to the minus 1075,
so that strconv rounds it to zero (Go reports no error on underflow),
compared exactly with integer arithmetic. -/
def underflowsToZero (base mant : Nat) (exp : Int) : Bool :=
  if 0 ≤ exp then decide (mant = 0)
  else decide (mant * float64UnderflowNat ≤ base ^ (-exp).toNat)

/-- Number of binary digits of n, with structural fuel (exact whenever
the fuel is at least the bit length). -/
def bitlen : Nat → Nat → Nat
  | 0, _ => 0
  | fuel + 1, n => if n = 0 then 0 else bitlen fuel (n / 2) + 1

/-- Whether A / B is at least 2 to the d, by exact integer comparison. -/
def geShift (A B : Nat) (d : Int) : Bool :=
  if 0 ≤ d then decide (B * 2 ^ d.toNat ≤ A) else decide (B ≤ A * 2 ^ (-d).toNat)

/-- Round the positive rational A / B to the nearest binary64 value
(round half to even, subnormal range included), returning the mantissa
and binary exponent of the result; exact whenever A / B lies strictly
between 2 to the minus 1075 and 2 to the 1024 and the fuel bounds the
bit lengths of A and B. -/
def roundFloat64 (fuel A B : Nat) : Nat × Int :=
  let d : Int := (bitlen fuel A : Int) - (bitlen fuel B : Int)
  let e : Int := if geShift A B d then d else d - 1
  let s : Int := max (e - 52) (-1074)
  let num := A * 2 ^ (-s).toNat
  let den := B * 2 ^ s.toNat
  let q := num / den
  let r := num % den
  let m := if den < 2 * r then q + 1
    else if 2 * r < den then q
    else if q % 2 = 0 then q else q + 1
  if m = 2 ^ 53 then (2 ^ 52, s + 1) else (m, s)

/-- Model of strconv.ParseFloat(s, 64): the special inf/infinity/nan
spellings, underscore validation, the decimal and hexadecimal grammars,
the ErrRange overflow check (values at or beyond the float64 rounding
threshold fail, as the callers here treat ErrRange as failure), and the
correct rounding strconv guarantees: underflow gives zero without error
and every other value is rounded to the nearest binary64, ties to even.
The fuel passed to the rounder bounds the bit lengths involved: a
mantissa read from the string has fewer than 4 bits per character and
the capped exponent contributes at most 4 bits per unit. -/
def goParseFloat (s : String) : Option GoFloat :=
  let low := goToLower s
  if low = "nan" then some .nan
  else if low = "inf" ∨ low = "infinity" ∨ low = "+inf" ∨ low = "+infinity" then
    some (.inf false)
  else if low = "-inf" ∨ low = "-infinity" then some (.inf true)
  else if s.data.contains '_' ∧ ¬ underscoreOK s then none
  else
    let l := s.data.filter (· ≠ '_')
    let sp := splitSign l
    let body := sp.2
    let val : Option (Nat × Nat × Int) :=
      match body with
      | '0' :: x :: rest =>
        if x = 'x' ∨ x = 'X' then (parseHexMantissa rest).map (fun v => (2, v))
        else (parseDecMantissa body).map (fun v => (10, v))
      | _ => (parseDecMantissa body).map (fun v => (10, v))
    match val with
    | none => none
    | some (base, mant, exp) =>
      if overflowsFloat64 base mant exp then none
      else if underflowsToZero base mant exp then some (.finite sp.1 0 0)
      else
        let fuel := 4 * s.length + 4 * exp.natAbs + 128
        let p := roundFloat64 fuel (mant * base ^ exp.toNat) (base ^ (-exp).toNat)
        some (.finite sp.1 p.1 p.2)

end Go

namespace Go

/-- A parsed IP address: the 4-byte form produced for dotted-quad input,
or the 16-byte form produced for IPv6 textual input (Go keeps dotted-quad
addresses in a mapped 16-byte representation; the two-constructor form
here has identical To4/String behaviour). -/
inductive GoIP where
  | v4 (bytes : List Nat)
  | v6 (bytes : List Nat)
  deriving DecidableEq

/-- Split a character list at each non-overlapping occurrence of a
separator sequence, left to right, with structural fuel always
sufficient when at least the list length (the semantics of
strings.Split / String.splitOn for a non-empty separator). -/
def splitSeqAux (sep : List Char) : Nat → List Char → List Char → List (List Char)
  | _, [], acc => [acc.reverse]
  | 0, l, acc => [acc.reverse ++ l]
  | fuel + 1, c :: rest, acc =>
    if sep.isPrefixOf (c :: rest) then
      acc.reverse :: splitSeqAux sep fuel (List.drop sep.length (c :: rest)) []
    else splitSeqAux sep fuel rest (c :: acc)

/-- Split a character list on a separator sequence. -/
def splitSeq (sep : List Char) (l : List Char) : List (List Char) :=
  splitSeqAux sep l.length l []

/-- One dotted-quad field: 1-3 decimal digits, value at most 255, leading
zeros rejected (Go 1.17+ semantics used by net/netip). -/
def parseV4Field (s : List Char) : Option Nat :=
  if s = [] ∨ ¬ s.all Char.isDigit then none
  else if 1 < s.length ∧ s.head? = some '0' then none
  else if 3 < s.length then none
  else
    let v := decValue s
    if v ≤ 255 then some v else none

/-- Model of netip's parseIPv4: exactly four dotted fields. -/
def parseIPv4 (s : String) : Option (List Nat) :=
  match (splitSeq ['.'] s.data).map parseV4Field with
  | [some a, some b, some c, some d] => some [a, b, c, d]
  | _ => none

/-- One colon-separated IPv6 group: 1-4 hexadecimal digits. -/
def parseV6Group (s : List Char) : Option Nat :=
  if s = [] ∨ ¬ s.all isHexDigit then none
  else if 4 < s.length then none
  else some (hexValue s)

/-- Parse one side of an IPv6 address (the part before or after a double
colon) into bytes.  Only the last group of the trailing side may be an
embedded dotted-quad. -/
def parseV6Side (s : String) (allowV4 : Bool) : Option (List Nat) :=
  if s = "" then some []
  else
    let gs := splitSeq [':'] s.data
    let rec build : List (List Char) → Option (List Nat)
      | [] => some []
      | [g] =>
        if allowV4 ∧ g.contains '.' then parseIPv4 ⟨g⟩
        else (parseV6Group g).map (fun w => [w / 256, w % 256])
      | g :: rest =>
        match parseV6Group g, build rest with
        | some w, some bs => some (w / 256 :: w % 256 :: bs)
        | _, _ => none
    build gs

/-- Model of netip's parseIPv6 (zones rejected, as net.ParseIP does):
an optional single double colon splits the address; without it the groups
must fill exactly 16 bytes, with it they must fill at most 14 so that the
compressed run covers at least one group. -/
def parseIPv6 (s : String) : Option GoIP :=
  match splitSeq [':', ':'] s.data with
  | [whole] =>
    match parseV6Side ⟨whole⟩ true with
    | some bs => if bs.length = 16 then some (.v6 bs) else none
    | none => none
  | [l, r] =>
    match parseV6Side ⟨l⟩ false, parseV6Side ⟨r⟩ true with
    | some lb, some rb =>
      if lb.length + rb.length ≤ 14 then
        some (.v6 (lb ++ List.replicate (16 - lb.length - rb.length) 0 ++ rb))
      else none
    | _, _ => none
  | _ => none

/-- Model of net.ParseIP / netip.ParseAddr dispatch: the first of the
characters dot, colon or percent decides the family; none of them means
failure. -/
def parseIP (s : String) : Option GoIP :=
  match s.data.find? (fun c => c = '.' ∨ c = ':' ∨ c = '%') with
  | some '.' => (parseIPv4 s).map GoIP.v4
  | some ':' => parseIPv6 s
  | _ => none

/-- Model of net.IP.To4: a 4-byte address, or a 16-byte address in the
IPv4-mapped form ::ffff:a.b.c.d. -/
def to4 : GoIP → Option (List Nat)
  | .v4 bs => some bs
  | .v6 bs =>
    match bs with
    | [0, 0, 0, 0, 0, 0, 0, 0, 0, 0, 255, 255, a, b, c, d] => some [a, b, c, d]
    | _ => none

/-- Dotted-quad rendering of four bytes; the fallback for malformed byte
lists mirrors the "?" marker Go uses for invalid lengths. -/
def ipv4String (bs : List Nat) : String :=
  match bs with
  | [a, b, c, d] => natDec a ++ "." ++ natDec b ++ "." ++ natDec c ++ "." ++ natDec d
  | _ => "?"

/-- 16-bit words of a byte list (big endian pairs). -/
def bytesToWords : List Nat → List Nat
  | a :: b :: rest => (a * 256 + b) :: bytesToWords rest
  | _ => []

/-- Run starts of zero words: position and run length for every index
starting a maximal run of zero words. -/
def zeroRunAt (ws : List Nat) (i : Nat) : Nat :=
  ((ws.drop i).takeWhile (· = 0)).length

/-- The leftmost longest run of at least two zero words, as (start, end),
matching the strictly-greater scan in Go's IP.String. -/
def bestZeroRun (ws : List Nat) : Option (Nat × Nat) :=
  let cands := (List.range ws.length).filterMap (fun i =>
    if (i = 0 ∨ ws.getD (i - 1) 1 ≠ 0) ∧ ws.getD i 1 = 0 then
      some (i, zeroRunAt ws i)
    else none)
  let best := cands.foldl (fun acc c =>
    match acc with
    | none => some c
    | some b => if c.2 > b.2 then some c else some b) none
  match best with
  | some (i, len) => if 2 ≤ len then some (i, i + len) else none
  | none => none

/-- Render the words of an IPv6 address with the given compressed range. -/
def v6Words (ws : List Nat) (e0 e1 : Nat) : String :=
  let rec go (i : Nat) (fuel : Nat) : String :=
    match fuel with
    | 0 => ""
    | fuel + 1 =>
      if i ≥ ws.length then ""
      else if i = e0 then
        "::" ++ (if e1 ≥ ws.length then "" else natHex (ws.getD e1 0) ++ go (e1 + 1) fuel)
      else
        (if i > 0 then ":" else "") ++ natHex (ws.getD i 0) ++ go (i + 1) fuel
  go 0 (ws.length + 1)

/-- Model of net.IP.String: dotted quad for 4-byte and IPv4-mapped
addresses, RFC 5952 canonical form otherwise. -/
def ipToString (ip : GoIP) : String :=
  match to4 ip with
  | some bs => ipv4String bs
  | none =>
    match ip with
    | .v4 _ => "?"
    | .v6 bs =>
      let ws := bytesToWords bs
      match bestZeroRun ws with
      | some (e0, e1) => v6Words ws e0 e1
      | none => v6Words ws ws.length ws.length

/-- Leading-ones count of one mask byte, when the byte is of the
contiguous form; none models the -1 of Go's simpleMaskLength. -/
def byteLeadingOnes (v : Nat) : Option Nat :=
  if v = 0 then some 0
  else if v = 0x80 then some 1
  else if v = 0xC0 then some 2
  else if v = 0xE0 then some 3
  else if v = 0xF0 then some 4
  else if v = 0xF8 then some 5
  else if v = 0xFC then some 6
  else if v = 0xFE then some 7
  else if v = 0xFF then some 8
  else none

/-- Model of Go's simpleMaskLength: number of leading one bits when the
mask is contiguous ones followed by zeros, none otherwise. -/
def maskOnes : List Nat → Option Nat
  | [] => some 0
  | b :: rest =>
    if b = 255 then (maskOnes rest).map (8 + ·)
    else
      match byteLeadingOnes b with
      | some k => if rest.all (· = 0) then some k else none
      | none => none

/-- Model of net.IPMask.Size: the ones count, with 0 for a
non-contiguous mask. -/
def maskSize (bs : List Nat) : Nat := (maskOnes bs).getD 0

/-- Model of net.CIDRMask: a mask of the given total bits with the given
number of leading ones. -/
def cidrMask (ones bits : Nat) : List Nat :=
  (List.range (bits / 8)).map (fun i =>
    if (i + 1) * 8 ≤ ones then 255
    else if i * 8 ≥ ones then 0
    else 256 - 2 ^ (8 - (ones - i * 8)))

/-- Byte-wise AND of an address with a mask of matching length,
modelling net.IP.Mask for the aligned cases produced by ParseCIDR. -/
def ipMask (ip : GoIP) (mask : List Nat) : GoIP :=
  match ip with
  | .v4 bs => .v4 (List.zipWith (· &&& ·) bs mask)
  | .v6 bs => .v6 (List.zipWith (· &&& ·) bs mask)

/-- Result of net.ParseCIDR: the address as written, the masked network
address, and the mask bytes. -/
structure GoCIDR where
  ip : GoIP
  network : GoIP
  mask : List Nat
  deriving DecidableEq

/-- The prefix-length parser of ParseCIDR (Go's dtoi with full-string
consumption): decimal digits only, leading zeros tolerated, failing at
the dtoi big cutoff. -/
def parsePrefixDecimal (s : String) : Option Nat :=
  if s.data = [] ∨ ¬ s.data.all Char.isDigit then none
  else
    let v := decValue s.data
    if v < 0xFFFFFF then some v else none

/-- Model of net.ParseCIDR: split at the first slash, parse the address,
parse the prefix length bounded by the address family's bit length, and
mask the address. -/
def parseCIDR (s : String) : Option GoCIDR :=
  match s.data.findIdx? (· = '/') with
  | none => none
  | some i =>
    let addr : String := ⟨s.data.take i⟩
    let maskStr : String := ⟨s.data.drop (i + 1)⟩
    match parseIP addr with
    | none => none
    | some ip =>
      match parsePrefixDecimal maskStr with
      | none => none
      | some n =>
        let bits := match ip with | .v4 _ => 32 | .v6 _ => 128
        if n ≤ bits then
          let m := cidrMask n bits
          some ⟨ip, ipMask ip m, m⟩
        else none

/-- Model of net.IPMask.String: plain lowercase hex of the mask bytes. -/
def maskHexString (bs : List Nat) : String :=
  bs.foldl (fun acc b => acc ++ byteHex b) ""

/-- Model of net.IPNet.String for a network built by ParseCIDR: the masked
address, a slash, and the simple mask length (hex mask in the
non-contiguous case, which CIDRMask never produces). -/
def ipNetString (network : GoIP) (mask : List Nat) : String :=
  match maskOnes mask with
  | some l => ipToString network ++ "/" ++ natDec l
  | none => ipToString network ++ "/" ++ maskHexString mask

end Go

namespace Go

/-- Escape one character as Go's strconv.Quote does for the ASCII range
(the full Unicode IsPrint tables are out of scope; every string quoted in
this code base is ASCII). -/
def quoteChar (c : Char) : List Char :=
  if c = '"' then ['\\', '"']
  else if c = '\\' then ['\\', '\\']
  else if c = '\n' then ['\\', 'n']
  else if c = '\r' then ['\\', 'r']
  else if c = '\t' then ['\\', 't']
  else if 0x20 ≤ c.toNat ∧ c.toNat < 0x7f then [c]
  else if c.toNat < 0x20 then '\\' :: 'x' :: (byteHex c.toNat).data
  else [c]

/-- Model of fmt's %q verb on a string (strconv.Quote). -/
def goQuote (s : String) : String :=
  ⟨'"' :: (s.data.map quoteChar).flatten ++ ['"']⟩

end Go

namespace Routes

/-- The accessor contract of routeview.go's RouteView interface: the
eleven value accessors a route record exposes.  A Keenetic wire route is
turned into this record by its accessor methods. -/
structure RouteView where
  hostValue : String := ""
  networkValue : String := ""
  ipValue : String := ""
  maskValue : String := ""
  prefixValue : Int := 0
  prefixLenValue : Int := 0
  commentValue : String := ""
  gatewayValue : String := ""
  interfaceValue : String := ""
  autoValue : Bool := false
  rejectValue : Bool := false
  deriving DecidableEq

/-- Model of routes.isIPv4OrCIDR: with a slash the string must be a CIDR
whose address part is (or maps to) IPv4; otherwise it must be an address
that is (or maps to) IPv4. -/
def isIPv4OrCIDR (s : String) : Bool :=
  if s.data.contains '/' then
    match Go.parseCIDR s with
    | some c => (Go.to4 c.ip).isSome
    | none => false
  else
    match Go.parseIP s with
    | some ip => (Go.to4 ip).isSome
    | none => false

/-- Model of routes.RouteDest: the host field verbatim when valid, else
the network (or ip) address with a prefix length taken from prefix, then
prefixlen, then the mask's simple mask length, else bare. -/
def RouteDest (r : RouteView) : String :=
  let h := r.hostValue
  if h ≠ "" then
    if ¬ isIPv4OrCIDR h then "" else h
  else
    let network := if r.networkValue ≠ "" then r.networkValue else r.ipValue
    if network = "" then ""
    else if ((Go.parseIP network).bind Go.to4).isNone then ""
    else if 0 < r.prefixValue ∧ r.prefixValue ≤ 32 then
      network ++ "/" ++ Go.natDec r.prefixValue.toNat
    else if 0 < r.prefixLenValue ∧ r.prefixLenValue ≤ 32 then
      network ++ "/" ++ Go.natDec r.prefixLenValue.toNat
    else
      let maskStr := r.maskValue
      if maskStr = "" then network
      else
        match Go.parseIP maskStr with
        | none => network
        | some mip =>
          match Go.to4 mip with
          | none => network
          | some m4 => network ++ "/" ++ Go.natDec (Go.maskSize m4)

/-- The domain route of the routes package: one destination plus the
Keenetic attributes. -/
structure Route where
  host : String := ""
  comment : String := ""
  gateway : String := ""
  interface : String := ""
  auto : Bool := false
  reject : Bool := false
  deriving DecidableEq

/-- A YAML route group: shared attributes, literal hosts, and domains to
be resolved (the domains field is the one consumed by resolver.go). -/
structure RouteGroup where
  comment : String := ""
  gateway : String := ""
  interface : String := ""
  auto : Bool := false
  reject : Bool := false
  hosts : List String := []
  domains : List String := []
  deriving DecidableEq

/-- The root YAML structure. -/
structure RoutesFile where
  routes : List RouteGroup
  deriving DecidableEq

/-- Model of routes.normalizeHost: trim, reject empty, then either an
IPv4 CIDR normalized to its network form or a bare IPv4 address. -/
def normalizeHost (s : String) : Except String String :=
  let s := Go.goTrimSpace s
  if s = "" then .error "empty host"
  else if s.data.contains '/' then
    match Go.parseCIDR s with
    | none => .error ("invalid CIDR address: " ++ s)
    | some c =>
      if (Go.to4 c.ip).isNone then .error "invalid IPv4 CIDR"
      else .ok (Go.ipNetString c.network c.mask)
  else
    match Go.parseIP s with
    | none => .error "invalid IP"
    | some ip =>
      if (Go.to4 ip).isNone then .error "invalid IPv4"
      else .ok (Go.ipToString ip)

/-- The grouping key of convert.go. -/
structure routeGroupKey where
  comment : String
  gateway : String
  iface : String
  auto : Bool
  reject : Bool
  deriving DecidableEq

/-- Key of one domain route. -/
def keyOf (r : Route) : routeGroupKey :=
  ⟨r.comment, r.gateway, r.interface, r.auto, r.reject⟩

/-- Insertion-ordered association-list update modelling the map plus
first-seen order list of ToYAML. -/
def updateGroup : List (routeGroupKey × List String) → routeGroupKey → String →
    List (routeGroupKey × List String)
  | [], k, h => [(k, [h])]
  | (k', hs) :: rest, k, h =>
    if k' = k then (k', hs ++ [h]) :: rest
    else (k', hs) :: updateGroup rest k h

/-- Model of routes.ToYAML: group domain routes by their attribute key in
first-seen order, silently dropping routes whose destination is empty or
not IPv4/CIDR. -/
def ToYAML (routesList : List Route) : RoutesFile :=
  let grouped := routesList.foldl
    (fun acc r =>
      if r.host = "" ∨ ¬ isIPv4OrCIDR r.host then acc
      else updateGroup acc (keyOf r) r.host) []
  ⟨grouped.map (fun p =>
    { comment := p.1.comment, gateway := p.1.gateway, interface := p.1.iface,
      auto := p.1.auto, reject := p.1.reject, hosts := p.2 })⟩

/-- Per-host normalization loop of FlattenToEntries for one group. -/
def flattenHosts (g : RouteGroup) : List String → Except String (List Route)
  | [] => .ok []
  | h :: rest =>
    match normalizeHost h with
    | .error e =>
      .error ("group " ++ Go.goQuote g.comment ++ " host " ++ Go.goQuote h ++ ": " ++ e)
    | .ok norm =>
      (flattenHosts g rest).map (fun out =>
        ({ host := norm, comment := g.comment, gateway := g.gateway,
           interface := g.interface, auto := g.auto, reject := g.reject } : Route) :: out)

/-- Group loop of FlattenToEntries: groups without hosts are skipped;
other groups must set exactly one of gateway and interface. -/
def flattenGroups : List RouteGroup → Except String (List Route)
  | [] => .ok []
  | g :: rest =>
    if g.hosts = [] then flattenGroups rest
    else if (g.gateway ≠ "") ↔ (g.interface ≠ "") then
      .error ("group " ++ Go.goQuote g.comment ++ ": set exactly one of gateway or interface")
    else do
      let out ← flattenHosts g g.hosts
      let tail ← flattenGroups rest
      .ok (out ++ tail)

/-- Model of routes.FlattenToEntries. -/
def FlattenToEntries (rf : RoutesFile) : Except String (List Route) :=
  if rf.routes = [] then .ok [] else flattenGroups rf.routes

/-- Model of routes.groupLabel: the quoted comment, or the 1-based
positional index when the comment is empty. -/
def groupLabel (g : RouteGroup) (idx : Nat) : String :=
  if g.comment ≠ "" then Go.goQuote g.comment else "#" ++ Go.natDec (idx + 1)

/-- Summary of a resolution run. -/
structure ResolveSummary where
  groups : Nat := 0
  domains : Nat := 0
  ipsAdded : Nat := 0
  deriving DecidableEq

/-- Order-preserving deduplication; the Go set-of-seen-strings plus
output slice always hold the same members, so one list models both. -/
def dedupStrings : List String → List String → List String
  | [], acc => acc
  | s :: rest, acc =>
    if s ∈ acc then dedupStrings rest acc
    else dedupStrings rest (acc ++ [s])

/-- Model of routes.lookupIPv4 over a pure resolver oracle: a literal
IPv4 resolves to itself, a literal IPv6 is an error, otherwise the
resolver's answers filtered to IPv4 and deduplicated.  The 5-second
lookup timeout lives inside the oracle. -/
def lookupIPv4 (R : String → Except String (List Go.GoIP)) (domain : String) :
    Except String (List String) :=
  match Go.parseIP domain with
  | some ip =>
    match Go.to4 ip with
    | some b4 => .ok [Go.ipv4String b4]
    | none => .error "IPv6 is not supported"
  | none =>
    match R domain with
    | .error e => .error e
    | .ok addrs =>
      .ok (dedupStrings (addrs.filterMap (fun a => (Go.to4 a).map Go.ipv4String)) [])

/-- The host pre-merge loop of ResolveDomainsWithResolver: trim, drop
empties, deduplicate preserving first-seen order. -/
def mergeHosts : List String → List String → List String
  | [], merged => merged
  | h :: rest, merged =>
    let t := Go.goTrimSpace h
    if t = "" then mergeHosts rest merged
    else if t ∈ merged then mergeHosts rest merged
    else mergeHosts rest (merged ++ [t])

/-- Append the resolved addresses not already present, counting the
additions. -/
def addIPs : List String → List String → List String × Nat
  | [], merged => (merged, 0)
  | ip :: rest, merged =>
    if ip ∈ merged then addIPs rest merged
    else
      let p := addIPs rest (merged ++ [ip])
      (p.1, p.2 + 1)

/-- The per-group domain loop of ResolveDomainsWithResolver: skip
duplicate domains, fail on empty entries, resolve, require a non-empty
IPv4 answer set, and merge.  Returns the merged hosts, the number of
domains looked up, and the number of addresses added. -/
def resolveDomainList (R : String → Except String (List Go.GoIP)) (label : String) :
    List String → List String → List String → Nat → Nat →
    Except String (List String × Nat × Nat)
  | [], _, merged, dc, ic => .ok (merged, dc, ic)
  | d :: rest, seenD, merged, dc, ic =>
    let dom := Go.goTrimSpace d
    if dom = "" then .error ("group " ++ label ++ ": empty domain entry")
    else if dom ∈ seenD then resolveDomainList R label rest seenD merged dc ic
    else
      match lookupIPv4 R dom with
      | .error e =>
        .error ("group " ++ label ++ " domain " ++ Go.goQuote dom ++ ": " ++ e)
      | .ok ips =>
        if ips = [] then
          .error ("group " ++ label ++ " domain " ++ Go.goQuote dom ++ ": no IPv4 records found")
        else
          let p := addIPs ips merged
          resolveDomainList R label rest (seenD ++ [dom]) p.1 (dc + 1) (ic + p.2)

/-- The group loop of ResolveDomainsWithResolver: groups without domains
are untouched; others must set exactly one of gateway and interface, and
get their host list replaced by the merged list. -/
def resolveGroups (R : String → Except String (List Go.GoIP)) :
    List RouteGroup → Nat → ResolveSummary →
    Except String (ResolveSummary × List RouteGroup)
  | [], _, s => .ok (s, [])
  | g :: rest, i, s =>
    if g.domains = [] then
      (resolveGroups R rest (i + 1) s).map (fun p => (p.1, g :: p.2))
    else if (g.gateway = "") ↔ (g.interface = "") then
      .error ("group " ++ groupLabel g i ++ ": set exactly one of gateway or interface")
    else
      let merged := mergeHosts g.hosts []
      match resolveDomainList R (groupLabel g i) g.domains [] merged 0 0 with
      | .error e => .error e
      | .ok (m, dc, ic) =>
        (resolveGroups R rest (i + 1)
            ⟨s.groups + 1, s.domains + dc, s.ipsAdded + ic⟩).map
          (fun p => (p.1, { g with hosts := m } :: p.2))

/-- Model of routes.ResolveDomainsWithResolver.  Go mutates the file in
place and also returns a partially-updated summary beside an error; the
embedding returns the summary and the updated file on success only. -/
def ResolveDomainsWithResolver (R : String → Except String (List Go.GoIP))
    (rf : RoutesFile) : Except String (ResolveSummary × RoutesFile) :=
  if rf.routes = [] then .ok (⟨0, 0, 0⟩, rf)
  else (resolveGroups R rf.routes 0 ⟨0, 0, 0⟩).map (fun p => (p.1, ⟨p.2⟩))

end Routes

namespace Go

/-- UTF-8 encoding of one character, modelling Go's byte-slice view of a
string. -/
def charUtf8 (c : Char) : List Nat :=
  let n := c.toNat
  if n < 0x80 then [n]
  else if n < 0x800 then [0xC0 + n / 64, 0x80 + n % 64]
  else if n < 0x10000 then [0xE0 + n / 4096, 0x80 + n / 64 % 64, 0x80 + n % 64]
  else [0xF0 + n / 262144, 0x80 + n / 4096 % 64, 0x80 + n / 64 % 64, 0x80 + n % 64]

/-- UTF-8 bytes of a string. -/
def utf8Bytes (s : String) : List Nat := (s.data.map charUtf8).flatten

/-- Reduction modulo 2 to the 32. -/
def m32 (n : Nat) : Nat := n % 4294967296

/-- Left rotation of a 32-bit word. -/
def rotl32 (x n : Nat) : Nat := (x % 2 ^ (32 - n)) * 2 ^ n + x / 2 ^ (32 - n)

/-- Right rotation of a 32-bit word. -/
def rotr32 (x n : Nat) : Nat := (x % 2 ^ n) * 2 ^ (32 - n) + x / 2 ^ n

/-- Bitwise complement of a 32-bit word. -/
def notW (x : Nat) : Nat := 4294967295 - x

/-- Split a byte list into 64-byte chunks, with structural fuel always
sufficient when at least the list length. -/
def chunks64Aux : Nat → List Nat → List (List Nat)
  | 0, _ => []
  | _, [] => []
  | fuel + 1, x :: xs => (x :: xs).take 64 :: chunks64Aux fuel ((x :: xs).drop 64)

/-- Split a byte list into 64-byte chunks. -/
def chunks64 (l : List Nat) : List (List Nat) := chunks64Aux l.length l

/-- The 64 sine-derived constants of MD5. -/
def md5K : List Nat :=
  [3614090360, 3905402710, 606105819, 3250441966,
   4118548399, 1200080426, 2821735955, 4249261313,
   1770035416, 2336552879, 4294925233, 2304563134,
   1804603682, 4254626195, 2792965006, 1236535329,
   4129170786, 3225465664, 643717713, 3921069994,
   3593408605, 38016083, 3634488961, 3889429448,
   568446438, 3275163606, 4107603335, 1163531501,
   2850285829, 4243563512, 1735328473, 2368359562,
   4294588738, 2272392833, 1839030562, 4259657740,
   2763975236, 1272893353, 4139469664, 3200236656,
   681279174, 3936430074, 3572445317, 76029189,
   3654602809, 3873151461, 530742520, 3299628645,
   4096336452, 1126891415, 2878612391, 4237533241,
   1700485571, 2399980690, 4293915773, 2240044497,
   1873313359, 4264355552, 2734768916, 1309151649,
   4149444226, 3174756917, 718787259, 3951481745]

/-- The per-round left-rotation amounts of MD5. -/
def md5S : List Nat :=
  [7, 12, 17, 22, 7, 12, 17, 22, 7, 12, 17, 22, 7, 12, 17, 22,
   5, 9, 14, 20, 5, 9, 14, 20, 5, 9, 14, 20, 5, 9, 14, 20,
   4, 11, 16, 23, 4, 11, 16, 23, 4, 11, 16, 23, 4, 11, 16, 23,
   6, 10, 15, 21, 6, 10, 15, 21, 6, 10, 15, 21, 6, 10, 15, 21]

/-- Little-endian 32-bit words of a 64-byte block. -/
def leWords : List Nat → List Nat
  | a :: b :: c :: d :: rest => (a + 256 * b + 65536 * c + 16777216 * d) :: leWords rest
  | _ => []

/-- One MD5 round. -/
def md5Step (M : List Nat) (st : Nat × Nat × Nat × Nat) (i : Nat) :
    Nat × Nat × Nat × Nat :=
  let a := st.1
  let b := st.2.1
  let c := st.2.2.1
  let d := st.2.2.2
  let fg : Nat × Nat :=
    if i < 16 then ((b &&& c) ||| (notW b &&& d), i)
    else if i < 32 then ((d &&& b) ||| (notW d &&& c), (5 * i + 1) % 16)
    else if i < 48 then (b ^^^ c ^^^ d, (3 * i + 5) % 16)
    else (c ^^^ (b ||| notW d), (7 * i) % 16)
  let f := m32 (fg.1 + a + md5K.getD i 0 + M.getD fg.2 0)
  (d, m32 (b + rotl32 f (md5S.getD i 0)), b, c)

/-- One MD5 block. -/
def md5Chunk (st : Nat × Nat × Nat × Nat) (block : List Nat) :
    Nat × Nat × Nat × Nat :=
  let r := (List.range 64).foldl (md5Step (leWords block)) st
  (m32 (st.1 + r.1), m32 (st.2.1 + r.2.1), m32 (st.2.2.1 + r.2.2.1), m32 (st.2.2.2 + r.2.2.2))

/-- MD5 padding: a 1 bit, zeros to 56 mod 64, and the little-endian
64-bit bit length. -/
def md5Pad (msg : List Nat) : List Nat :=
  let padLen := (64 + 55 - msg.length % 64) % 64
  let bitLen := 8 * msg.length % 2 ^ 64
  msg ++ 0x80 :: List.replicate padLen 0 ++
    (List.range 8).map (fun i => bitLen / 2 ^ (8 * i) % 256)

/-- Little-endian bytes of a 32-bit word. -/
def wordLEBytes (w : Nat) : List Nat :=
  [w % 256, w / 256 % 256, w / 65536 % 256, w / 16777216 % 256]

/-- MD5 digest bytes of a message. -/
def md5Bytes (msg : List Nat) : List Nat :=
  let st := (chunks64 (md5Pad msg)).foldl md5Chunk
    (1732584193, 4023233417, 2562383102, 271733878)
  wordLEBytes st.1 ++ wordLEBytes st.2.1 ++ wordLEBytes st.2.2.1 ++ wordLEBytes st.2.2.2

/-- Lowercase hex of a byte list, modelling hex.EncodeToString. -/
def bytesHex (l : List Nat) : String :=
  l.foldl (fun acc b => acc ++ byteHex b) ""

/-- Lowercase-hex MD5 of a string, as crypto/md5 plus hex encoding. -/
def md5Hex (s : String) : String := bytesHex (md5Bytes (utf8Bytes s))

/-- The 64 round constants of SHA-256. -/
def sha256K : List Nat :=
  [1116352408, 1899447441, 3049323471, 3921009573,
   961987163, 1508970993, 2453635748, 2870763221,
   3624381080, 310598401, 607225278, 1426881987,
   1925078388, 2162078206, 2614888103, 3248222580,
   3835390401, 4022224774, 264347078, 604807628,
   770255983, 1249150122, 1555081692, 1996064986,
   2554220882, 2821834349, 2952996808, 3210313671,
   3336571891, 3584528711, 113926993, 338241895,
   666307205, 773529912, 1294757372, 1396182291,
   1695183700, 1986661051, 2177026350, 2456956037,
   2730485921, 2820302411, 3259730800, 3345764771,
   3516065817, 3600352804, 4094571909, 275423344,
   430227734, 506948616, 659060556, 883997877,
   958139571, 1322822218, 1537002063, 1747873779,
   1955562222, 2024104815, 2227730452, 2361852424,
   2428436474, 2756734187, 3204031479, 3329325298]

/-- Big-endian 32-bit words of a 64-byte block. -/
def beWords : List Nat → List Nat
  | a :: b :: c :: d :: rest => (((a * 256 + b) * 256 + c) * 256 + d) :: beWords rest
  | _ => []

/-- Extend the 16 block words to the 64-entry SHA-256 message schedule. -/
def sha256Schedule (w : List Nat) : List Nat :=
  (List.range 48).foldl (fun ws _ =>
    let n := ws.length
    let x15 := ws.getD (n - 15) 0
    let x2 := ws.getD (n - 2) 0
    let s0 := rotr32 x15 7 ^^^ rotr32 x15 18 ^^^ x15 / 2 ^ 3
    let s1 := rotr32 x2 17 ^^^ rotr32 x2 19 ^^^ x2 / 2 ^ 10
    ws ++ [m32 (ws.getD (n - 16) 0 + s0 + ws.getD (n - 7) 0 + s1)]) w

/-- One SHA-256 block: 64 compression rounds plus the feed-forward. -/
def sha256Compress (st : List Nat) (block : List Nat) : List Nat :=
  let ws := sha256Schedule (beWords block)
  let r := (List.range 64).foldl (fun h i =>
    match h with
    | [a, b, c, d, e, f, g, hh] =>
      let S1 := rotr32 e 6 ^^^ rotr32 e 11 ^^^ rotr32 e 25
      let ch := (e &&& f) ^^^ (notW e &&& g)
      let t1 := m32 (hh + S1 + ch + sha256K.getD i 0 + ws.getD i 0)
      let S0 := rotr32 a 2 ^^^ rotr32 a 13 ^^^ rotr32 a 22
      let mj := (a &&& b) ^^^ (a &&& c) ^^^ (b &&& c)
      let t2 := m32 (S0 + mj)
      [m32 (t1 + t2), a, b, c, m32 (d + t1), e, f, g]
    | other => other) st
  List.zipWith (fun x y => m32 (x + y)) st r

/-- SHA-256 padding: a 1 bit, zeros to 56 mod 64, and the big-endian
64-bit bit length. -/
def sha256Pad (msg : List Nat) : List Nat :=
  let padLen := (64 + 55 - msg.length % 64) % 64
  let bitLen := 8 * msg.length % 2 ^ 64
  msg ++ 0x80 :: List.replicate padLen 0 ++
    (List.range 8).map (fun i => bitLen / 2 ^ (8 * (7 - i)) % 256)

/-- Big-endian bytes of a 32-bit word. -/
def wordBEBytes (w : Nat) : List Nat :=
  [w / 16777216 % 256, w / 65536 % 256, w / 256 % 256, w % 256]

/-- SHA-256 digest bytes of a message. -/
def sha256Bytes (msg : List Nat) : List Nat :=
  let st := (chunks64 (sha256Pad msg)).foldl sha256Compress
    [1779033703, 3144134277, 1013904242, 2773480762,
     1359893119, 2600822924, 528734635, 1541459225]
  (st.map wordBEBytes).flatten

/-- Lowercase-hex SHA-256 of a string, as crypto/sha256 plus hex
encoding. -/
def sha256Hex (s : String) : String := bytesHex (sha256Bytes (utf8Bytes s))

end Go

namespace Keenetic

/-- Strip all leading and trailing double quotes, modelling
strings.Trim(s, a quote). -/
def trimQuoteChars (l : List Char) : List Char :=
  ((l.dropWhile (· = '"')).reverse.dropWhile (· = '"')).reverse

/-- The unwrap step shared by Boolish and Intish decoding: when the raw
text starts and ends with a double quote, strip quotes from both ends and
trim the inside. -/
def unquoteStep (s : String) : String :=
  if 2 ≤ s.data.length ∧ s.data.head? = some '"' ∧ s.data.getLast? = some '"' then
    Go.goTrimSpace ⟨trimQuoteChars s.data⟩
  else s

/-- Model of Boolish.UnmarshalJSON over the raw JSON bytes of one value:
trim, map null/empty to false, unquote, match the case-insensitive
keywords, then fall back to ParseFloat with f unequal to zero.  Every
path returns ok. -/
def boolishUnmarshal (data : String) : Except String Bool :=
  let s := Go.goTrimSpace data
  if s = "" ∨ s = "null" then .ok false
  else
    let s := unquoteStep s
    let low := Go.goToLower s
    if low = "true" ∨ low = "1" ∨ low = "yes" then .ok true
    else if low = "false" ∨ low = "0" ∨ low = "no" then .ok false
    else
      match Go.goParseFloat s with
      | some f => .ok f.nonzeroB
      | none => .ok false

/-- Model of Intish.UnmarshalJSON over the raw JSON bytes of one value:
trim, map null/empty to 0, unquote, try Atoi, then ParseFloat accepting
only values equal to their truncation.  Every path returns ok. -/
def intishUnmarshal (data : String) : Except String Int :=
  let s := Go.goTrimSpace data
  if s = "" ∨ s = "null" then .ok 0
  else
    let s := unquoteStep s
    match Go.goAtoi s with
    | some n => .ok n
    | none =>
      match Go.goParseFloat s with
      | some f =>
        match f.truncIntVal with
        | some n => .ok n
        | none => .ok 0
      | none => .ok 0

/-- The wire route of the keenetic package: every field optional, string
fields holding Stringish payloads, integer fields Intish, boolean fields
Boolish, and the delete marker a plain bool pointer. -/
structure Route where
  host : Option String := none
  network : Option String := none
  ip : Option String := none
  mask : Option String := none
  prefixNum : Option Int := none
  prefixLen : Option Int := none
  comment : Option String := none
  gateway : Option String := none
  interface : Option String := none
  auto : Option Bool := none
  reject : Option Bool := none
  no : Option Bool := none
  deriving DecidableEq

/-- Model of the stringValue accessor helper: empty for nil, trimmed
otherwise. -/
def stringValue (v : Option String) : String := Go.goTrimSpace (v.getD "")

/-- Model of the boolValue accessor helper. -/
def boolValue (v : Option Bool) : Bool := v.getD false

/-- Model of the intValue accessor helper. -/
def intValue (v : Option Int) : Int := v.getD 0

/-- The RouteView record a wire route exposes through its accessor
methods. -/
def Route.view (r : Route) : Routes.RouteView :=
  { hostValue := stringValue r.host
    networkValue := stringValue r.network
    ipValue := stringValue r.ip
    maskValue := stringValue r.mask
    prefixValue := intValue r.prefixNum
    prefixLenValue := intValue r.prefixLen
    commentValue := stringValue r.comment
    gatewayValue := stringValue r.gateway
    interfaceValue := stringValue r.interface
    autoValue := boolValue r.auto
    rejectValue := boolValue r.reject }

/-- One element of a batch request body: a route envelope (the
ip/route wrapper object) or the save-configuration directive (the
system/configuration/save object). -/
inductive PayloadElem where
  | route (r : Route)
  | save
  deriving DecidableEq

/-- Model of buildRoute: host addressing for plain destinations,
network plus dotted mask for destinations containing a slash, and the
optional reject/gateway/interface attributes. -/
def buildRoute (e : Routes.Route) : Except String Route :=
  let withAddr : Except String Route :=
    if e.host.data.contains '/' then
      match Go.parseCIDR e.host with
      | none =>
        .error ("invalid CIDR " ++ Go.goQuote e.host ++ ": invalid CIDR address: " ++ e.host)
      | some c =>
        let maskIP : Go.GoIP := if c.mask.length = 4 then .v4 c.mask else .v6 c.mask
        .ok { auto := some e.auto, comment := some e.comment,
              network := some (Go.ipToString c.network),
              mask := some (Go.ipToString maskIP) }
    else
      .ok { auto := some e.auto, comment := some e.comment, host := some e.host }
  withAddr.map (fun r =>
    let r := if e.reject then { r with reject := some true } else r
    let r := if e.gateway ≠ "" then { r with gateway := some e.gateway } else r
    if e.interface ≠ "" then { r with interface := some e.interface } else r)

/-- HTTP method of a request. -/
inductive Method where
  | get
  | post
  deriving DecidableEq

/-- Typed request body: the auth credentials object or a batch array
(JSON serialization itself is standard-library plumbing outside the
model). -/
inductive ReqBody where
  | auth (login password : String)
  | batch (elems : List PayloadElem)
  deriving DecidableEq

/-- An outbound HTTP request. -/
structure HttpRequest where
  method : Method
  path : String
  body : Option ReqBody
  deriving DecidableEq

/-- An HTTP response: status, the two NDM challenge headers (empty string
models an absent header, as Go's Header.Get does), the decoded route list
for route fetches, and the raw body text used in error messages. -/
structure HttpResponse where
  status : Nat
  ndmRealm : String := ""
  ndmChallenge : String := ""
  routes : List Route := []
  bodyText : String := ""

/-- The session client: credentials captured at construction and the
authenticated flag.  The cookie jar lives inside the transport oracle. -/
structure Client where
  login : String
  password : String
  authed : Bool := false
  deriving DecidableEq

/-- The unauthenticated probe request of the handshake. -/
def authProbe : HttpRequest := ⟨.get, "/auth", none⟩

/-- The credential POST of the handshake. -/
def authPost (login digest : String) : HttpRequest :=
  ⟨.post, "/auth", some (.auth login digest)⟩

/-- The password digest of the handshake: lowercase-hex SHA-256 of the
challenge concatenated with the lowercase-hex MD5 of
login:realm:password. -/
def passwordDigest (login realm password challenge : String) : String :=
  Go.sha256Hex (challenge ++ Go.md5Hex (login ++ ":" ++ realm ++ ":" ++ password))

/-- Model of Client.auth over a transport oracle: no-op when already
authenticated; 200 on the probe marks authenticated; 401 requires both
challenge headers, computes the digest and POSTs it, and only 200 on the
POST marks authenticated.  Returns the new state and the requests sent. -/
def clientAuth (send : HttpRequest → HttpResponse) (c : Client) :
    Except String (Client × List HttpRequest) :=
  if c.authed then .ok (c, [])
  else
    let resp := send authProbe
    if resp.status = 200 then .ok ({ c with authed := true }, [authProbe])
    else if resp.status ≠ 401 then
      .error ("auth GET: unexpected status " ++ Go.natDec resp.status)
    else if resp.ndmRealm = "" ∨ resp.ndmChallenge = "" then
      .error "auth: missing X-NDM-Realm or X-NDM-Challenge"
    else
      let shaHex := passwordDigest c.login resp.ndmRealm c.password resp.ndmChallenge
      let req := authPost c.login shaHex
      let postResp := send req
      if postResp.status ≠ 200 then
        .error ("auth POST: status " ++ Go.natDec postResp.status)
      else .ok ({ c with authed := true }, [authProbe, req])

/-- GET when no body is supplied, POST with a JSON body otherwise. -/
def mkRequest (query : String) (body : Option (List PayloadElem)) : HttpRequest :=
  match body with
  | none => ⟨.get, query, none⟩
  | some p => ⟨.post, query, some (.batch p)⟩

/-- Model of Client.Request: ensure authentication, send, and on a 401
invalidate the state, re-authenticate and retry exactly once; any final
non-200 status is an error.  Returns the new state, the final response
and the transcript of requests sent. -/
def clientRequest (send : HttpRequest → HttpResponse) (c : Client) (query : String)
    (body : Option (List PayloadElem)) :
    Except String (Client × HttpResponse × List HttpRequest) := do
  let a ← clientAuth send c
  let c1 := a.1
  let req := mkRequest query body
  let resp := send req
  if resp.status = 401 then
    let a2 ← clientAuth send { c1 with authed := false }
    let resp2 := send req
    if resp2.status ≠ 200 then
      .error ("request " ++ query ++ ": status " ++ Go.natDec resp2.status ++ ": " ++ resp2.bodyText)
    else .ok (a2.1, resp2, a.2 ++ [req] ++ a2.2 ++ [req])
  else if resp.status ≠ 200 then
    .error ("request " ++ query ++ ": status " ++ Go.natDec resp.status ++ ": " ++ resp.bodyText)
  else .ok (c1, resp, a.2 ++ [req])

/-- Model of Client.GetRoutes: a single GET of the route list; the JSON
decoding through the flexible scalar decoders is modelled by the typed
routes field of the response. -/
def getRoutes (send : HttpRequest → HttpResponse) (c : Client) :
    Except String (Client × List Route × List HttpRequest) := do
  let r ← clientRequest send c "rci/ip/route" none
  .ok (r.1, r.2.1.routes, r.2.2)

/-- Model of Client.DeleteAllRoutes: fetch, mark every record with the
delete directive, append the persist directive, and submit the whole
batch as one request. -/
def deleteAllRoutes (send : HttpRequest → HttpResponse) (c : Client) :
    Except String (Client × List HttpRequest) := do
  let g ← getRoutes send c
  let payload := g.2.1.map (fun r => PayloadElem.route { r with no := some true })
    ++ [PayloadElem.save]
  let r ← clientRequest send g.1 "rci/" (some payload)
  .ok (r.1, g.2.2 ++ r.2.2)

/-- Build the payload of one batch: a route envelope per entry and the
persist directive as the final element. -/
def buildRoutesList : List Routes.Route → Except String (List Route)
  | [] => .ok []
  | e :: rest =>
    match buildRoute e with
    | .error msg => .error ("add routes: " ++ msg)
    | .ok r => (buildRoutesList rest).map (r :: ·)

/-- The payload of one batch. -/
def buildBatchPayload (batch : List Routes.Route) : Except String (List PayloadElem) :=
  (buildRoutesList batch).map (fun rs => rs.map PayloadElem.route ++ [PayloadElem.save])

/-- The fixed-size slices the AddRoutes loop iterates over, in list
order, with structural fuel always sufficient when at least the list
length. -/
def chunks50Aux : Nat → List Routes.Route → List (List Routes.Route)
  | 0, _ => []
  | _, [] => []
  | fuel + 1, x :: xs => (x :: xs).take 50 :: chunks50Aux fuel ((x :: xs).drop 50)

/-- The batch slices of an entry list. -/
def chunks50 (l : List Routes.Route) : List (List Routes.Route) :=
  chunks50Aux l.length l

/-- The batch loop of AddRoutes: one request per slice, submitted
sequentially, the running start index kept for the error message. -/
def addRoutesBatches (send : HttpRequest → HttpResponse) :
    Client → List (List Routes.Route) → Nat →
    Except String (Client × List HttpRequest)
  | c, [], _ => .ok (c, [])
  | c, batch :: rest, i =>
    match buildBatchPayload batch with
    | .error msg => .error msg
    | .ok payload =>
      match clientRequest send c "rci/" (some payload) with
      | .error msg => .error ("add routes batch at " ++ Go.natDec i ++ ": " ++ msg)
      | .ok r =>
        (addRoutesBatches send r.1 rest (i + 50)).map
          (fun p => (p.1, r.2.2 ++ p.2))

/-- Model of Client.AddRoutes: an empty list is a success no-op, anything
else runs the batch loop over the 50-entry slices from index 0. -/
def addRoutes (send : HttpRequest → HttpResponse) (c : Client)
    (entries : List Routes.Route) : Except String (Client × List HttpRequest) :=
  if entries = [] then .ok (c, [])
  else addRoutesBatches send c (chunks50 entries) 0

end Keenetic

/-- C9: for every JSON scalar text, the flexible boolean and integer
decoders never return an error (in fact for arbitrary input bytes); the
boolean decoder maps the true/1/yes keywords (case-insensitively, after
unquoting) to true, the false/0/no keywords to false, a parseable number
to the truth of the f-not-equal-0 test (hence any parseable non-zero
number to true), and anything unrecognized, null or empty to false; the
integer decoder maps null, empty or unparseable input to 0.  Both
decoders are total functions, so decoding cannot crash either. -/
theorem flexible_decoders_total (s : String) :
    (∃ b, Keenetic.boolishUnmarshal s = .ok b) ∧
    (∃ n, Keenetic.intishUnmarshal s = .ok n) ∧
    ((Go.goTrimSpace s = "" ∨ Go.goTrimSpace s = "null") →
      Keenetic.boolishUnmarshal s = .ok false ∧ Keenetic.intishUnmarshal s = .ok 0) ∧
    (¬ (Go.goTrimSpace s = "" ∨ Go.goTrimSpace s = "null") →
      ((Go.goToLower (Keenetic.unquoteStep (Go.goTrimSpace s)) = "true" ∨
        Go.goToLower (Keenetic.unquoteStep (Go.goTrimSpace s)) = "1" ∨
        Go.goToLower (Keenetic.unquoteStep (Go.goTrimSpace s)) = "yes") →
          Keenetic.boolishUnmarshal s = .ok true) ∧
      ((Go.goToLower (Keenetic.unquoteStep (Go.goTrimSpace s)) = "false" ∨
        Go.goToLower (Keenetic.unquoteStep (Go.goTrimSpace s)) = "0" ∨
        Go.goToLower (Keenetic.unquoteStep (Go.goTrimSpace s)) = "no") →
          Keenetic.boolishUnmarshal s = .ok false) ∧
      (¬ (Go.goToLower (Keenetic.unquoteStep (Go.goTrimSpace s)) = "true" ∨
          Go.goToLower (Keenetic.unquoteStep (Go.goTrimSpace s)) = "1" ∨
          Go.goToLower (Keenetic.unquoteStep (Go.goTrimSpace s)) = "yes") →
       ¬ (Go.goToLower (Keenetic.unquoteStep (Go.goTrimSpace s)) = "false" ∨
          Go.goToLower (Keenetic.unquoteStep (Go.goTrimSpace s)) = "0" ∨
          Go.goToLower (Keenetic.unquoteStep (Go.goTrimSpace s)) = "no") →
        (∀ f, Go.goParseFloat (Keenetic.unquoteStep (Go.goTrimSpace s)) = some f →
          Keenetic.boolishUnmarshal s = .ok f.nonzeroB) ∧
        (Go.goParseFloat (Keenetic.unquoteStep (Go.goTrimSpace s)) = none →
          Keenetic.boolishUnmarshal s = .ok false)) ∧
      (Go.goAtoi (Keenetic.unquoteStep (Go.goTrimSpace s)) = none →
       Go.goParseFloat (Keenetic.unquoteStep (Go.goTrimSpace s)) = none →
        Keenetic.intishUnmarshal s = .ok 0)) := by
  refine ⟨?_, ?_, ?_, ?_⟩
  · unfold Keenetic.boolishUnmarshal
    dsimp only
    repeat' split
    all_goals exact ⟨_, rfl⟩
  · unfold Keenetic.intishUnmarshal
    dsimp only
    repeat' split
    all_goals exact ⟨_, rfl⟩
  · intro h
    unfold Keenetic.boolishUnmarshal Keenetic.intishUnmarshal
    dsimp only
    rw [if_pos h, if_pos h]
    exact ⟨rfl, rfl⟩
  · intro h
    refine ⟨?_, ?_, ?_, ?_⟩
    · intro hk
      unfold Keenetic.boolishUnmarshal
      dsimp only
      rw [if_neg h, if_pos hk]
    · intro hk
      have hk1 : ¬ (Go.goToLower (Keenetic.unquoteStep (Go.goTrimSpace s)) = "true" ∨
          Go.goToLower (Keenetic.unquoteStep (Go.goTrimSpace s)) = "1" ∨
          Go.goToLower (Keenetic.unquoteStep (Go.goTrimSpace s)) = "yes") := by
        rcases hk with h1 | h1 | h1 <;> rw [h1] <;> decide
      unfold Keenetic.boolishUnmarshal
      dsimp only
      rw [if_neg h, if_neg hk1, if_pos hk]
    · intro hk1 hk2
      constructor
      · intro f hf
        unfold Keenetic.boolishUnmarshal
        dsimp only
        rw [if_neg h, if_neg hk1, if_neg hk2, hf]
      · intro hf
        unfold Keenetic.boolishUnmarshal
        dsimp only
        rw [if_neg h, if_neg hk1, if_neg hk2, hf]
    · intro ha hf
      unfold Keenetic.intishUnmarshal
      dsimp only
      rw [if_neg h, ha, hf]

/-- C9 witness: the decoders evaluated at concrete scalars (a quoted
case-insensitive keyword, a non-zero fractional number, null, and a
quoted non-numeric string) through the theorem. -/
theorem flexible_decoders_total_witness :
    Keenetic.boolishUnmarshal " \"YES\" " = .ok true ∧
    Keenetic.boolishUnmarshal "2.5" = .ok true ∧
    Keenetic.intishUnmarshal "null" = .ok 0 ∧
    Keenetic.intishUnmarshal "\"x\"" = .ok 0 := by
  refine ⟨?_, ?_, ?_, ?_⟩
  · exact ((flexible_decoders_total " \"YES\" ").2.2.2 (by decide)).1 (by decide)
  · have h2 := (((flexible_decoders_total "2.5").2.2.2 (by decide)).2.2.1
      (by decide) (by decide)).1 (.finite false 5629499534213120 (-51)) (by decide)
    have h3 : (Go.GoFloat.finite false 5629499534213120 (-51)).nonzeroB = true := by decide
    rw [h3] at h2
    exact h2
  · exact ((flexible_decoders_total "null").2.2.1 (by decide)).2
  · exact ((flexible_decoders_total "\"x\"").2.2.2 (by decide)).2.2.2 (by decide) (by decide)

/-- C10: FlattenToEntries applies the gateway/interface mutual-exclusivity
check only to groups whose host list is non-empty: a group with zero
hosts is skipped entirely and never raises a validation error, whatever
its gateway and interface fields hold. -/
theorem flatten_skips_hostless_groups (g : Routes.RouteGroup)
    (rest : List Routes.RouteGroup) (h : g.hosts = []) :
    Routes.FlattenToEntries ⟨g :: rest⟩ = Routes.FlattenToEntries ⟨rest⟩ := by
  have h1 : Routes.flattenGroups (g :: rest) = Routes.flattenGroups rest := by
    conv_lhs => rw [Routes.flattenGroups]
    rw [if_pos h]
  unfold Routes.FlattenToEntries
  dsimp only
  rw [if_neg (by simp), h1]
  cases rest with
  | nil => rw [if_pos rfl]; decide
  | cons a t => rw [if_neg (by simp)]

/-- C10 witness: a hostless group that sets both gateway and interface
flattens without any error. -/
theorem flatten_skips_hostless_groups_witness :
    Routes.FlattenToEntries
      ⟨[{ comment := "x", gateway := "10.0.0.1", interface := "ISP", hosts := [] }]⟩ =
      .ok [] := by
  have h := flatten_skips_hostless_groups
    { comment := "x", gateway := "10.0.0.1", interface := "ISP", hosts := [] } [] rfl
  rw [h]
  decide

/-- An uncommented group with a host that sets both gateway and
interface, used to refute the positional-index naming of C5. -/
def c5File : Routes.RoutesFile :=
  ⟨[{ comment := "", gateway := "10.0.0.1", interface := "ISP", hosts := ["1.2.3.4"] }]⟩

/-- C5 counterexample: flattening an uncommented offending group fails
with a message naming the group by its (empty) quoted comment, not by the
positional index the claim requires for comment-less groups. -/
theorem flatten_label_counterexample :
    Routes.FlattenToEntries c5File =
      .error "group \"\": set exactly one of gateway or interface" ∧
    Routes.FlattenToEntries c5File ≠
      .error ("group #1: set exactly one of gateway or interface") := by
  constructor <;> decide

/-- C5 (amended): a group that sets both gateway and interface, or
neither, fails flattening (when it has hosts) with an error naming the
group by its quoted comment, and fails resolution (when it has domains)
with an error naming the group by its quoted comment or, when
uncommented, by its 1-based positional index; groups with no hosts
(flattening) or no domains (resolution) are skipped. -/
theorem exclusivity_error_naming (g : Routes.RouteGroup)
    (R : String → Except String (List Go.GoIP)) :
    (g.hosts ≠ [] → ((g.gateway = "") ↔ (g.interface = "")) →
      Routes.FlattenToEntries ⟨[g]⟩ =
        .error ("group " ++ Go.goQuote g.comment ++ ": set exactly one of gateway or interface")) ∧
    (g.domains ≠ [] → ((g.gateway = "") ↔ (g.interface = "")) →
      Routes.ResolveDomainsWithResolver R ⟨[g]⟩ =
        .error ("group " ++ Routes.groupLabel g 0 ++ ": set exactly one of gateway or interface")) := by
  constructor
  · intro hh hboth
    unfold Routes.FlattenToEntries
    dsimp only
    rw [if_neg (by simp)]
    conv_lhs => rw [Routes.flattenGroups]
    rw [if_neg hh, if_pos (not_iff_not.mpr hboth)]
  · intro hd hboth
    unfold Routes.ResolveDomainsWithResolver
    dsimp only
    rw [if_neg (by simp)]
    conv_lhs => rw [Routes.resolveGroups]
    rw [if_neg hd, if_pos hboth]
    rfl

/-- C5 witness: a commented group with neither gateway nor interface
fails flattening under its quoted comment, and an uncommented group with
both fails resolution under the positional label. -/
theorem exclusivity_error_naming_witness :
    Routes.FlattenToEntries
      ⟨[{ comment := "vpn", hosts := ["1.2.3.4"] }]⟩ =
      .error "group \"vpn\": set exactly one of gateway or interface" ∧
    Routes.ResolveDomainsWithResolver (fun _ => .ok [])
      ⟨[{ comment := "", gateway := "g", interface := "i", domains := ["example.com"] }]⟩ =
      .error "group #1: set exactly one of gateway or interface" := by
  constructor
  · have h := (exclusivity_error_naming
      { comment := "vpn", hosts := ["1.2.3.4"] } (fun _ => .ok [])).1
      (by decide) (by decide)
    rw [h]
    decide
  · have h := (exclusivity_error_naming
      { comment := "", gateway := "g", interface := "i", domains := ["example.com"] }
      (fun _ => .ok [])).2 (by decide) (by decide)
    rw [h]
    decide

namespace Routes

/-- Destination of a record whose host field is set and valid. -/
lemma routeDest_host_valid (r : RouteView) (hne : r.hostValue ≠ "")
    (hv : isIPv4OrCIDR r.hostValue = true) : RouteDest r = r.hostValue := by
  unfold RouteDest
  dsimp only
  rw [if_pos hne, if_neg (not_not_intro hv)]

/-- Destination of a record whose host field is set but invalid. -/
lemma routeDest_host_invalid (r : RouteView) (hne : r.hostValue ≠ "")
    (hv : isIPv4OrCIDR r.hostValue = false) : RouteDest r = "" := by
  unfold RouteDest
  dsimp only
  rw [if_pos hne, if_pos (by simp [hv])]

/-- Destination of a record whose network field does not resolve to an
IPv4 address. -/
lemma routeDest_network_v6 (r : RouteView) (hh : r.hostValue = "")
    (hn : r.networkValue ≠ "")
    (hv : (Go.parseIP r.networkValue).bind Go.to4 = none) : RouteDest r = "" := by
  unfold RouteDest
  dsimp only
  rw [if_neg (not_not_intro hh), if_pos hn, if_neg hn, hv]
  simp

/-- Destination of a record falling back to the ip field when that field
does not resolve to an IPv4 address. -/
lemma routeDest_ip_v6 (r : RouteView) (hh : r.hostValue = "")
    (hn : r.networkValue = "") (hi : r.ipValue ≠ "")
    (hv : (Go.parseIP r.ipValue).bind Go.to4 = none) : RouteDest r = "" := by
  unfold RouteDest
  dsimp only
  rw [if_neg (not_not_intro hh), if_neg (not_not_intro hn), if_neg hi, hv]
  simp

/-- Destination of a record taking the prefix branch. -/
lemma routeDest_prefix_branch (r : RouteView) (hh : r.hostValue = "")
    (hn : r.networkValue ≠ "") {v} (hv : (Go.parseIP r.networkValue).bind Go.to4 = some v)
    (hp : 0 < r.prefixValue ∧ r.prefixValue ≤ 32) :
    RouteDest r = r.networkValue ++ "/" ++ Go.natDec r.prefixValue.toNat := by
  unfold RouteDest
  dsimp only
  rw [if_neg (not_not_intro hh), if_pos hn, if_neg hn, hv]
  rw [if_neg (by simp), if_pos hp]

/-- Destination of a record taking the prefixlen branch. -/
lemma routeDest_prefixLen_branch (r : RouteView) (hh : r.hostValue = "")
    (hn : r.networkValue ≠ "") {v} (hv : (Go.parseIP r.networkValue).bind Go.to4 = some v)
    (hp : ¬ (0 < r.prefixValue ∧ r.prefixValue ≤ 32))
    (hpl : 0 < r.prefixLenValue ∧ r.prefixLenValue ≤ 32) :
    RouteDest r = r.networkValue ++ "/" ++ Go.natDec r.prefixLenValue.toNat := by
  unfold RouteDest
  dsimp only
  rw [if_neg (not_not_intro hh), if_pos hn, if_neg hn, hv]
  rw [if_neg (by simp), if_neg hp, if_pos hpl]

/-- Destination of a record taking the mask branch with an IPv4 mask. -/
lemma routeDest_mask_branch (r : RouteView) (hh : r.hostValue = "")
    (hn : r.networkValue ≠ "") {v} (hv : (Go.parseIP r.networkValue).bind Go.to4 = some v)
    (hp : ¬ (0 < r.prefixValue ∧ r.prefixValue ≤ 32))
    (hpl : ¬ (0 < r.prefixLenValue ∧ r.prefixLenValue ≤ 32))
    {mip m4} (hm : Go.parseIP r.maskValue = some mip) (hm4 : Go.to4 mip = some m4) :
    RouteDest r = r.networkValue ++ "/" ++ Go.natDec (Go.maskSize m4) := by
  have hmne : r.maskValue ≠ "" := by
    intro he
    rw [he] at hm
    exact Option.noConfusion ((rfl : Go.parseIP "" = none) ▸ hm)
  unfold RouteDest
  dsimp only
  rw [if_neg (not_not_intro hh), if_pos hn, if_neg hn, hv]
  rw [if_neg (by simp), if_neg hp, if_neg hpl, if_neg hmne, hm]
  dsimp only
  rw [hm4]

/-- Destination of a record whose mask does not resolve to IPv4: the
bare network address. -/
lemma routeDest_mask_v6 (r : RouteView) (hh : r.hostValue = "")
    (hn : r.networkValue ≠ "") {v} (hv : (Go.parseIP r.networkValue).bind Go.to4 = some v)
    (hp : ¬ (0 < r.prefixValue ∧ r.prefixValue ≤ 32))
    (hpl : ¬ (0 < r.prefixLenValue ∧ r.prefixLenValue ≤ 32))
    {mip} (hm : Go.parseIP r.maskValue = some mip) (hm4 : Go.to4 mip = none) :
    RouteDest r = r.networkValue := by
  have hmne : r.maskValue ≠ "" := by
    intro he
    rw [he] at hm
    exact Option.noConfusion ((rfl : Go.parseIP "" = none) ▸ hm)
  unfold RouteDest
  dsimp only
  rw [if_neg (not_not_intro hh), if_pos hn, if_neg hn, hv]
  rw [if_neg (by simp), if_neg hp, if_neg hpl, if_neg hmne, hm]
  dsimp only
  rw [hm4]

/-- Destination of a record with no length information at all. -/
lemma routeDest_bare_network (r : RouteView) (hh : r.hostValue = "")
    (hn : r.networkValue ≠ "") {v} (hv : (Go.parseIP r.networkValue).bind Go.to4 = some v)
    (hp : ¬ (0 < r.prefixValue ∧ r.prefixValue ≤ 32))
    (hpl : ¬ (0 < r.prefixLenValue ∧ r.prefixLenValue ≤ 32))
    (hmask : r.maskValue = "") : RouteDest r = r.networkValue := by
  unfold RouteDest
  dsimp only
  rw [if_neg (not_not_intro hh), if_pos hn, if_neg hn, hv]
  rw [if_neg (by simp), if_neg hp, if_neg hpl, if_pos hmask]

end Routes

/-- C3: destination derivation is a function of the record (hence
deterministic); the host field is used verbatim when it is a valid
IPv4/CIDR; otherwise the prefix length is taken in preference order
prefix (1-32), then prefixlen (1-32), then the mask's bit length, else
the bare network address; and deriving from network with prefix 24 gives
the same string as deriving from network with mask 255.255.255.0. -/
theorem routeDest_addressing_styles (r : Routes.RouteView) :
    (r.hostValue ≠ "" → Routes.isIPv4OrCIDR r.hostValue = true →
      Routes.RouteDest r = r.hostValue) ∧
    (r.hostValue = "" → r.networkValue ≠ "" →
      ∀ v, (Go.parseIP r.networkValue).bind Go.to4 = some v →
      ((0 < r.prefixValue ∧ r.prefixValue ≤ 32 →
        Routes.RouteDest r = r.networkValue ++ "/" ++ Go.natDec r.prefixValue.toNat) ∧
       (¬ (0 < r.prefixValue ∧ r.prefixValue ≤ 32) →
        0 < r.prefixLenValue ∧ r.prefixLenValue ≤ 32 →
        Routes.RouteDest r = r.networkValue ++ "/" ++ Go.natDec r.prefixLenValue.toNat) ∧
       (¬ (0 < r.prefixValue ∧ r.prefixValue ≤ 32) →
        ¬ (0 < r.prefixLenValue ∧ r.prefixLenValue ≤ 32) →
        ∀ mip m4, Go.parseIP r.maskValue = some mip → Go.to4 mip = some m4 →
          Routes.RouteDest r = r.networkValue ++ "/" ++ Go.natDec (Go.maskSize m4)) ∧
       (¬ (0 < r.prefixValue ∧ r.prefixValue ≤ 32) →
        ¬ (0 < r.prefixLenValue ∧ r.prefixLenValue ≤ 32) →
        r.maskValue = "" → Routes.RouteDest r = r.networkValue))) ∧
    (∀ network, network ≠ "" → ∀ v, (Go.parseIP network).bind Go.to4 = some v →
      Routes.RouteDest { networkValue := network, prefixValue := 24 } =
      Routes.RouteDest { networkValue := network, maskValue := "255.255.255.0" }) := by
  refine ⟨?_, ?_, ?_⟩
  · exact fun hne hv => Routes.routeDest_host_valid r hne hv
  · intro hh hn v hv
    exact ⟨fun hp => Routes.routeDest_prefix_branch r hh hn hv hp,
      fun hp hpl => Routes.routeDest_prefixLen_branch r hh hn hv hp hpl,
      fun hp hpl mip m4 hm hm4 => Routes.routeDest_mask_branch r hh hn hv hp hpl hm hm4,
      fun hp hpl hmask => Routes.routeDest_bare_network r hh hn hv hp hpl hmask⟩
  · intro network hn v hv
    rw [Routes.routeDest_prefix_branch { networkValue := network, prefixValue := 24 }
      rfl hn hv (by exact (by decide : (0 : Int) < 24 ∧ (24 : Int) ≤ 32))]
    rw [Routes.routeDest_mask_branch { networkValue := network, maskValue := "255.255.255.0" }
      rfl hn hv
      (by exact (by decide : ¬ ((0 : Int) < 0 ∧ (0 : Int) ≤ 32)))
      (by exact (by decide : ¬ ((0 : Int) < 0 ∧ (0 : Int) ≤ 32)))
      (by exact (by decide : Go.parseIP "255.255.255.0" = some (.v4 [255, 255, 255, 0])))
      (by exact (by decide : Go.to4 (.v4 [255, 255, 255, 0]) = some [255, 255, 255, 0]))]
    rfl

/-- C3 witness: a verbatim host, the prefix/mask equivalence at network
192.168.0.0, and the concrete value both styles produce. -/
theorem routeDest_addressing_styles_witness :
    Routes.RouteDest { hostValue := "8.8.8.8" } = "8.8.8.8" ∧
    Routes.RouteDest { networkValue := "192.168.0.0", prefixValue := 24 } =
      Routes.RouteDest { networkValue := "192.168.0.0", maskValue := "255.255.255.0" } ∧
    Routes.RouteDest { networkValue := "192.168.0.0", maskValue := "255.255.255.0" } =
      "192.168.0.0/24" := by
  refine ⟨?_, ?_, by decide⟩
  · exact (routeDest_addressing_styles { hostValue := "8.8.8.8" }).1 (by decide) (by decide)
  · exact (routeDest_addressing_styles { hostValue := "" }).2.2 "192.168.0.0" (by decide)
      [192, 168, 0, 0] (by decide)

/-- C4 counterexample: an IPv6 value in the mask field does not make
destination derivation fail; the derivation falls back to the bare
network address, contradicting the claim that IPv6 in any addressing
field yields an empty result. -/
theorem routeDest_ipv6_mask_counterexample :
    (∃ ip, Go.parseIP "2001:db8::1" = some ip ∧ Go.to4 ip = none) ∧
    Routes.RouteDest { networkValue := "192.168.0.0", maskValue := "2001:db8::1" } =
      "192.168.0.0" ∧
    Routes.RouteDest { networkValue := "192.168.0.0", maskValue := "2001:db8::1" } ≠ "" := by
  refine ⟨⟨.v6 [32, 1, 13, 184, 0, 0, 0, 0, 0, 0, 0, 0, 0, 0, 0, 1], by decide, by decide⟩,
    by decide, by decide⟩

/-- C4 (amended): an IPv6 value (an address whose To4 view is empty) in
the host, network or ip field makes destination derivation return the
empty result, and the derivation is a total function so it never
crashes; an IPv6 value in the mask field is ignored and the bare network
address is returned instead. -/
theorem routeDest_ipv6_rejection (r : Routes.RouteView) :
    (r.hostValue ≠ "" → ¬ r.hostValue.data.contains '/' →
      ∀ ip, Go.parseIP r.hostValue = some ip → Go.to4 ip = none →
      Routes.RouteDest r = "") ∧
    (r.hostValue ≠ "" → r.hostValue.data.contains '/' →
      ∀ c, Go.parseCIDR r.hostValue = some c → Go.to4 c.ip = none →
      Routes.RouteDest r = "") ∧
    (r.hostValue = "" → r.networkValue ≠ "" →
      ∀ ip, Go.parseIP r.networkValue = some ip → Go.to4 ip = none →
      Routes.RouteDest r = "") ∧
    (r.hostValue = "" → r.networkValue = "" → r.ipValue ≠ "" →
      ∀ ip, Go.parseIP r.ipValue = some ip → Go.to4 ip = none →
      Routes.RouteDest r = "") ∧
    (r.hostValue = "" → r.networkValue ≠ "" →
      ∀ v, (Go.parseIP r.networkValue).bind Go.to4 = some v →
      ¬ (0 < r.prefixValue ∧ r.prefixValue ≤ 32) →
      ¬ (0 < r.prefixLenValue ∧ r.prefixLenValue ≤ 32) →
      ∀ mip, Go.parseIP r.maskValue = some mip → Go.to4 mip = none →
      Routes.RouteDest r = r.networkValue) := by
  refine ⟨?_, ?_, ?_, ?_, ?_⟩
  · intro hne hslash ip hip h4
    refine Routes.routeDest_host_invalid r hne ?_
    unfold Routes.isIPv4OrCIDR
    rw [if_neg (by simpa using hslash), hip]
    dsimp only
    rw [h4]
    rfl
  · intro hne hslash c hc h4
    refine Routes.routeDest_host_invalid r hne ?_
    unfold Routes.isIPv4OrCIDR
    rw [if_pos (by simpa using hslash), hc]
    dsimp only
    rw [h4]
    rfl
  · intro hh hn ip hip h4
    exact Routes.routeDest_network_v6 r hh hn (by rw [hip]; simpa using h4)
  · intro hh hn hi ip hip h4
    exact Routes.routeDest_ip_v6 r hh hn hi (by rw [hip]; simpa using h4)
  · intro hh hn v hv hp hpl mip hm hm4
    exact Routes.routeDest_mask_v6 r hh hn hv hp hpl hm hm4

/-- C4 witness: IPv6 literals in each addressing field, through the
amended theorem: host, CIDR host, network and ip all fail, while an IPv6
mask falls back to the bare network. -/
theorem routeDest_ipv6_rejection_witness :
    Routes.RouteDest { hostValue := "2001:db8::1" } = "" ∧
    Routes.RouteDest { hostValue := "2001:db8::/32" } = "" ∧
    Routes.RouteDest { networkValue := "2001:db8::1" } = "" ∧
    Routes.RouteDest { ipValue := "2001:db8::1" } = "" ∧
    Routes.RouteDest { networkValue := "192.168.0.0", maskValue := "::" } = "192.168.0.0" := by
  refine ⟨?_, ?_, ?_, ?_, ?_⟩
  · exact (routeDest_ipv6_rejection { hostValue := "2001:db8::1" }).1 (by decide) (by decide)
      (.v6 [32, 1, 13, 184, 0, 0, 0, 0, 0, 0, 0, 0, 0, 0, 0, 1]) (by decide) (by decide)
  · exact (routeDest_ipv6_rejection { hostValue := "2001:db8::/32" }).2.1 (by decide) (by decide)
      ⟨.v6 [32, 1, 13, 184, 0, 0, 0, 0, 0, 0, 0, 0, 0, 0, 0, 0],
       .v6 [32, 1, 13, 184, 0, 0, 0, 0, 0, 0, 0, 0, 0, 0, 0, 0],
       [255, 255, 255, 255, 0, 0, 0, 0, 0, 0, 0, 0, 0, 0, 0, 0]⟩ (by decide) (by decide)
  · exact (routeDest_ipv6_rejection { networkValue := "2001:db8::1" }).2.2.1 (by decide)
      (by decide) (.v6 [32, 1, 13, 184, 0, 0, 0, 0, 0, 0, 0, 0, 0, 0, 0, 1]) (by decide) (by decide)
  · exact (routeDest_ipv6_rejection { ipValue := "2001:db8::1" }).2.2.2.1 (by decide) (by decide)
      (by decide) (.v6 [32, 1, 13, 184, 0, 0, 0, 0, 0, 0, 0, 0, 0, 0, 0, 1]) (by decide) (by decide)
  · exact (routeDest_ipv6_rejection { networkValue := "192.168.0.0", maskValue := "::" }).2.2.2.2
      (by decide) (by decide) [192, 168, 0, 0] (by decide)
      (by exact (by decide : ¬ ((0 : Int) < 0 ∧ (0 : Int) ≤ 32)))
      (by exact (by decide : ¬ ((0 : Int) < 0 ∧ (0 : Int) ≤ 32)))
      (.v6 [0, 0, 0, 0, 0, 0, 0, 0, 0, 0, 0, 0, 0, 0, 0, 0]) (by decide) (by decide)

namespace Keenetic

/-- An already-authenticated client skips the handshake. -/
lemma clientAuth_authed (send : HttpRequest → HttpResponse) (c : Client)
    (h : c.authed = true) : clientAuth send c = .ok (c, []) := by
  unfold clientAuth
  rw [if_pos h]

/-- A request from an authenticated client against a transport answering
200 is sent exactly once and returned as is. -/
lemma clientRequest_authed_ok (send : HttpRequest → HttpResponse) (c : Client)
    (q : String) (b : Option (List PayloadElem)) (hauth : c.authed = true)
    (hst : (send (mkRequest q b)).status = 200) :
    clientRequest send c q b = .ok (c, send (mkRequest q b), [mkRequest q b]) := by
  unfold clientRequest
  rw [clientAuth_authed send c hauth]
  dsimp only [Except.bind, bind]
  rw [if_neg (by rw [hst]; decide), if_neg (by rw [hst]; decide)]
  rfl

/-- When every entry builds, the batch route list builds with one wire
route per entry. -/
lemma buildRoutesList_ok (l : List Routes.Route)
    (h : ∀ e ∈ l, ∃ r, buildRoute e = .ok r) :
    ∃ rs, buildRoutesList l = .ok rs ∧ rs.length = l.length := by
  induction l with
  | nil => exact ⟨[], rfl, rfl⟩
  | cons e es ih =>
    obtain ⟨r, hr⟩ := h e (List.mem_cons_self e es)
    obtain ⟨rs, hrs, hlen⟩ := ih (fun x hx => h x (List.mem_cons_of_mem e hx))
    refine ⟨r :: rs, ?_, by simp [hlen]⟩
    unfold buildRoutesList
    rw [hr, hrs]
    rfl

/-- Chunking the empty list gives no batches at any fuel. -/
lemma chunks50Aux_nil (fuel : Nat) : chunks50Aux fuel [] = [] := by
  cases fuel <;> rfl

/-- A non-empty list of at most 50 entries is a single batch. -/
lemma chunks50Aux_small (fuel : Nat) (l : List Routes.Route) (hne : l ≠ [])
    (hlen : l.length ≤ 50) : chunks50Aux (fuel + 1) l = [l] := by
  cases l with
  | nil => exact absurd rfl hne
  | cons x xs =>
    unfold chunks50Aux
    rw [List.take_of_length_le hlen, List.drop_eq_nil_of_le hlen, chunks50Aux_nil]

/-- A 55-entry list splits into its first 50 entries and the remaining
5. -/
lemma chunks50_two (l : List Routes.Route) (h : l.length = 55) :
    chunks50 l = [l.take 50, l.drop 50] := by
  unfold chunks50
  rw [h]
  cases l with
  | nil => simp at h
  | cons x xs =>
    show chunks50Aux (54 + 1) (x :: xs) = _
    unfold chunks50Aux
    rw [chunks50Aux_small 53 ((x :: xs).drop 50) ?_ ?_]
    · intro he
      have : ((x :: xs).drop 50).length = 0 := by rw [he]; rfl
      rw [List.length_drop, h] at this
      omega
    · rw [List.length_drop, h]
      omega

/-- A wire route built from an entry whose destination has no slash
always succeeds (host addressing). -/
lemma buildRoute_no_slash (e : Routes.Route) (h : e.host.data.contains '/' = false) :
    ∃ r, Keenetic.buildRoute e = .ok r := by
  unfold Keenetic.buildRoute
  rw [if_neg (by simp only [h]; decide)]
  exact ⟨_, rfl⟩

end Keenetic

/-- C1: after a 401 probe carrying a realm and a challenge, the
handshake POSTs a body whose login field is the client's login and whose
password field is the lowercase-hex SHA-256 of the challenge
concatenated with the lowercase-hex MD5 of login:realm:password; a 200
response to that POST leaves the client in the authenticated state. -/
theorem clientAuth_handshake_digest (send : Keenetic.HttpRequest → Keenetic.HttpResponse)
    (c : Keenetic.Client) (hun : c.authed = false)
    (h401 : (send Keenetic.authProbe).status = 401)
    (hrealm : (send Keenetic.authProbe).ndmRealm ≠ "")
    (hchal : (send Keenetic.authProbe).ndmChallenge ≠ "")
    (h200 : (send (Keenetic.authPost c.login
      (Keenetic.passwordDigest c.login (send Keenetic.authProbe).ndmRealm c.password
        (send Keenetic.authProbe).ndmChallenge))).status = 200) :
    Keenetic.clientAuth send c =
      .ok ({ c with authed := true },
        [Keenetic.authProbe,
         Keenetic.authPost c.login
           (Keenetic.passwordDigest c.login (send Keenetic.authProbe).ndmRealm c.password
             (send Keenetic.authProbe).ndmChallenge)]) ∧
    (∀ login realm password challenge, Keenetic.passwordDigest login realm password challenge =
      Go.sha256Hex (challenge ++ Go.md5Hex (login ++ ":" ++ realm ++ ":" ++ password))) := by
  refine ⟨?_, fun _ _ _ _ => rfl⟩
  unfold Keenetic.clientAuth
  rw [if_neg (by simp [hun])]
  dsimp only
  rw [if_neg (by rw [h401]; decide), if_neg (not_not_intro h401),
    if_neg (fun h => h.elim hrealm hchal), if_neg (not_not_intro h200)]

/-- A transport fixture for the C1 witness: 401 with realm and challenge
on the probe, 200 only for the exact expected digest. -/
def c1Server : Keenetic.HttpRequest → Keenetic.HttpResponse := fun req =>
  match req.method, req.path, req.body with
  | .get, "/auth", none => { status := 401, ndmRealm := "realm", ndmChallenge := "challenge" }
  | .post, "/auth", some (.auth l p) =>
    if l = "user" ∧ p = Go.sha256Hex ("challenge" ++ Go.md5Hex "user:realm:pass") then
      { status := 200 }
    else { status := 401 }
  | _, _, _ => { status := 404 }

set_option maxRecDepth 10000 in
/-- C1 witness: the handshake against the fixture server for login user,
realm realm, challenge challenge and password pass, with the digest
computed concretely by the embedded MD5 and SHA-256. -/
theorem clientAuth_handshake_digest_witness :
    Keenetic.clientAuth c1Server ⟨"user", "pass", false⟩ =
      .ok (⟨"user", "pass", true⟩,
        [Keenetic.authProbe,
         Keenetic.authPost "user"
           (Go.sha256Hex ("challenge" ++ Go.md5Hex ("user" ++ ":" ++ "realm" ++ ":" ++ "pass")))]) := by
  have h := (clientAuth_handshake_digest c1Server ⟨"user", "pass", false⟩ rfl rfl
    (by decide) (by decide) (by decide)).1
  rw [h]
  rfl

/-- C2: adding a 55-entry list of canonical routes through an
authenticated client sends exactly 2 batch requests, sequentially in
list order: the first holds the 50 first route envelopes followed by the
persist directive (51 elements), the second the remaining 5 envelopes
followed by the persist directive (6 elements); the persist directive is
the final element of each batch. -/
theorem addRoutes_55_two_batches (send : Keenetic.HttpRequest → Keenetic.HttpResponse)
    (c : Keenetic.Client) (entries : List Routes.Route)
    (hlen : entries.length = 55) (hauth : c.authed = true)
    (hok : ∀ e ∈ entries, ∃ r, Keenetic.buildRoute e = .ok r)
    (hst : ∀ req, (send req).status = 200) :
    ∃ rs1 rs2,
      Keenetic.buildRoutesList (entries.take 50) = .ok rs1 ∧
      Keenetic.buildRoutesList (entries.drop 50) = .ok rs2 ∧
      rs1.length = 50 ∧ rs2.length = 5 ∧
      Keenetic.addRoutes send c entries =
        .ok (c, [Keenetic.mkRequest "rci/" (some (rs1.map .route ++ [.save])),
                 Keenetic.mkRequest "rci/" (some (rs2.map .route ++ [.save]))]) ∧
      (rs1.map Keenetic.PayloadElem.route ++ [Keenetic.PayloadElem.save]).length = 51 ∧
      (rs2.map Keenetic.PayloadElem.route ++ [Keenetic.PayloadElem.save]).length = 6 ∧
      (rs1.map Keenetic.PayloadElem.route ++ [Keenetic.PayloadElem.save]).getLast? =
        some Keenetic.PayloadElem.save ∧
      (rs2.map Keenetic.PayloadElem.route ++ [Keenetic.PayloadElem.save]).getLast? =
        some Keenetic.PayloadElem.save := by
  obtain ⟨rs1, hrs1, hlen1⟩ := Keenetic.buildRoutesList_ok (entries.take 50)
    (fun e he => hok e (List.take_subset 50 entries he))
  obtain ⟨rs2, hrs2, hlen2⟩ := Keenetic.buildRoutesList_ok (entries.drop 50)
    (fun e he => hok e (List.drop_subset 50 entries he))
  have hl1 : rs1.length = 50 := by rw [hlen1, List.length_take, hlen]; omega
  have hl2 : rs2.length = 5 := by rw [hlen2, List.length_drop, hlen]
  refine ⟨rs1, rs2, hrs1, hrs2, hl1, hl2, ?_, by simp [hl1], by simp [hl2], by simp, by simp⟩
  unfold Keenetic.addRoutes
  rw [if_neg (by intro he; rw [he] at hlen; simp at hlen)]
  rw [Keenetic.chunks50_two entries hlen]
  unfold Keenetic.addRoutesBatches
  rw [show Keenetic.buildBatchPayload (entries.take 50) =
      .ok (rs1.map Keenetic.PayloadElem.route ++ [Keenetic.PayloadElem.save]) by
    unfold Keenetic.buildBatchPayload
    rw [hrs1]
    rfl]
  dsimp only
  rw [Keenetic.clientRequest_authed_ok send c "rci/" _ hauth (hst _)]
  dsimp only
  unfold Keenetic.addRoutesBatches
  rw [show Keenetic.buildBatchPayload (entries.drop 50) =
      .ok (rs2.map Keenetic.PayloadElem.route ++ [Keenetic.PayloadElem.save]) by
    unfold Keenetic.buildBatchPayload
    rw [hrs2]
    rfl]
  dsimp only
  rw [Keenetic.clientRequest_authed_ok send c "rci/" _ hauth (hst _)]
  rfl

/-- 55 distinct canonical host routes for the C2 witness. -/
def entries55 : List Routes.Route :=
  (List.range 55).map (fun i => { host := "10.0.0." ++ Go.natDec (i + 1), gateway := "10.0.0.1" })

/-- C2 witness: the 55 concrete entries against an all-200 transport
produce exactly two batch requests of 51 and 6 elements. -/
theorem addRoutes_55_two_batches_witness :
    ∃ (rs1 rs2 : List Keenetic.Route),
      Keenetic.addRoutes (fun _ => { status := 200 }) ⟨"user", "pass", true⟩ entries55 =
        .ok (⟨"user", "pass", true⟩,
          [Keenetic.mkRequest "rci/" (some (rs1.map Keenetic.PayloadElem.route ++ [Keenetic.PayloadElem.save])),
           Keenetic.mkRequest "rci/" (some (rs2.map Keenetic.PayloadElem.route ++ [Keenetic.PayloadElem.save]))]) ∧
      (rs1.map Keenetic.PayloadElem.route ++ [Keenetic.PayloadElem.save]).length = 51 ∧
      (rs2.map Keenetic.PayloadElem.route ++ [Keenetic.PayloadElem.save]).length = 6 := by
  have hns : ∀ e ∈ entries55, e.host.data.contains '/' = false := by decide
  obtain ⟨rs1, rs2, h1, h2, h3, h4, h5, h6, h7, h8, h9⟩ :=
    addRoutes_55_two_batches (fun _ => { status := 200 }) ⟨"user", "pass", true⟩ entries55
      (by decide) rfl (fun e he => Keenetic.buildRoute_no_slash e (hns e he)) (fun _ => rfl)
  exact ⟨rs1, rs2, h5, h6, h7⟩

/-- C7: delete-all fetches the current records, marks every fetched
record with the delete directive, appends the persist directive as the
final array element, and submits the whole batch as one request; when
the router's route set is empty that single request holds only the
persist directive. -/
theorem deleteAllRoutes_persist_batch (send : Keenetic.HttpRequest → Keenetic.HttpResponse)
    (c : Keenetic.Client) (rs : List Keenetic.Route) (hauth : c.authed = true)
    (hst : ∀ req, (send req).status = 200)
    (hrs : (send (Keenetic.mkRequest "rci/ip/route" none)).routes = rs) :
    Keenetic.deleteAllRoutes send c =
      .ok (c, [Keenetic.mkRequest "rci/ip/route" none,
        Keenetic.mkRequest "rci/"
          (some (rs.map (fun r => Keenetic.PayloadElem.route { r with no := some true })
            ++ [Keenetic.PayloadElem.save]))]) ∧
    (rs = [] → Keenetic.deleteAllRoutes send c =
      .ok (c, [Keenetic.mkRequest "rci/ip/route" none,
        Keenetic.mkRequest "rci/" (some [Keenetic.PayloadElem.save])])) := by
  have hmain : Keenetic.deleteAllRoutes send c =
      .ok (c, [Keenetic.mkRequest "rci/ip/route" none,
        Keenetic.mkRequest "rci/"
          (some (rs.map (fun r => Keenetic.PayloadElem.route { r with no := some true })
            ++ [Keenetic.PayloadElem.save]))]) := by
    unfold Keenetic.deleteAllRoutes Keenetic.getRoutes
    rw [Keenetic.clientRequest_authed_ok send c "rci/ip/route" none hauth (hst _)]
    dsimp only [Except.bind, bind]
    rw [hrs]
    rw [Keenetic.clientRequest_authed_ok send c "rci/" _ hauth (hst _)]
    rfl
  refine ⟨hmain, fun he => ?_⟩
  rw [hmain, he]
  rfl

/-- C7 witness: deleting against a router with zero routes sends exactly
the fetch and then one batch request holding only the persist
directive. -/
theorem deleteAllRoutes_persist_batch_witness :
    Keenetic.deleteAllRoutes
      (fun req => if req.path = "rci/ip/route" then { status := 200, routes := [] }
        else { status := 200 })
      ⟨"user", "pass", true⟩ =
      .ok (⟨"user", "pass", true⟩,
        [Keenetic.mkRequest "rci/ip/route" none,
         Keenetic.mkRequest "rci/" (some [Keenetic.PayloadElem.save])]) := by
  exact (deleteAllRoutes_persist_batch
    (fun req => if req.path = "rci/ip/route" then { status := 200, routes := [] }
      else { status := 200 })
    ⟨"user", "pass", true⟩ [] rfl
    (fun req => by dsimp only; split <;> rfl) (by decide)).2 rfl

namespace Routes

/-- The grouping fold over routes sharing one key appends every host to
that key's entry in order. -/
lemma toYAML_fold_uniform (k : routeGroupKey) :
    ∀ (rs : List Route) (hs : List String),
      (∀ r ∈ rs, keyOf r = k ∧ ¬ (r.host = "" ∨ ¬ isIPv4OrCIDR r.host = true)) →
      rs.foldl
        (fun acc r =>
          if r.host = "" ∨ ¬ isIPv4OrCIDR r.host = true then acc
          else updateGroup acc (keyOf r) r.host) [(k, hs)] =
      [(k, hs ++ rs.map Route.host)] := by
  intro rs
  induction rs with
  | nil => intro hs _; simp
  | cons r rest ih =>
    intro hs h
    obtain ⟨hk, hv⟩ := h r (List.mem_cons_self r rest)
    rw [List.foldl_cons, if_neg hv]
    have hstep : updateGroup [(k, hs)] (keyOf r) r.host = [(k, hs ++ [r.host])] := by
      unfold updateGroup
      rw [if_pos hk.symm]
    rw [hstep, ih (hs ++ [r.host]) (fun x hx => h x (List.mem_cons_of_mem r hx))]
    simp

/-- The routes file holding one group built from a key and a host
list. -/
def singleGroupFile (k : routeGroupKey) (hs : List String) : RoutesFile :=
  ⟨[{ comment := k.comment, gateway := k.gateway, interface := k.iface,
      auto := k.auto, reject := k.reject, hosts := hs, domains := [] }]⟩

/-- Grouping routes that all share one key and have valid destinations
produces exactly that one group with the hosts in encounter order. -/
lemma toYAML_uniform (rs : List Route) (k : routeGroupKey) (hne : rs ≠ [])
    (h : ∀ r ∈ rs, keyOf r = k ∧ ¬ (r.host = "" ∨ ¬ isIPv4OrCIDR r.host = true)) :
    ToYAML rs = singleGroupFile k (rs.map Route.host) := by
  cases rs with
  | nil => exact absurd rfl hne
  | cons r rest =>
    obtain ⟨hk, hv⟩ := h r (List.mem_cons_self r rest)
    unfold ToYAML
    dsimp only
    rw [List.foldl_cons, if_neg hv]
    have hstep : updateGroup [] (keyOf r) r.host = [(keyOf r, [r.host])] := rfl
    rw [hstep, hk]
    rw [toYAML_fold_uniform k rest [r.host] (fun x hx => h x (List.mem_cons_of_mem r hx))]
    rfl

/-- Flattening the hosts of a group whose routes carry the group's
attributes and self-normalizing hosts reproduces the routes. -/
lemma flattenHosts_roundtrip (g : RouteGroup) :
    ∀ (rs : List Route),
      (∀ r ∈ rs, r.comment = g.comment ∧ r.gateway = g.gateway ∧
        r.interface = g.interface ∧ r.auto = g.auto ∧ r.reject = g.reject) →
      (∀ r ∈ rs, normalizeHost r.host = .ok r.host) →
      flattenHosts g (rs.map Route.host) = .ok rs := by
  intro rs
  induction rs with
  | nil => intro _ _; rfl
  | cons r rest ih =>
    intro hattr hnorm
    rw [List.map_cons]
    unfold flattenHosts
    rw [hnorm r (List.mem_cons_self r rest)]
    rw [ih (fun x hx => hattr x (List.mem_cons_of_mem r hx))
        (fun x hx => hnorm x (List.mem_cons_of_mem r hx))]
    obtain ⟨h1, h2, h3, h4, h5⟩ := hattr r (List.mem_cons_self r rest)
    obtain ⟨rh, rc, rg, ri, ra, rr⟩ := r
    dsimp only at h1 h2 h3 h4 h5 ⊢
    rw [h1, h2, h3, h4, h5]
    rfl

end Routes

/-- C6: grouping a non-empty list of canonical routes that share the
same comment, gateway, interface, auto and reject attributes, have
valid non-empty self-normalized IPv4/CIDR destinations and set exactly
one of gateway and interface produces exactly one group holding the
hosts in encounter order, and flattening that group reproduces the
original routes with identical attributes. -/
theorem group_flatten_roundtrip (rs : List Routes.Route) (c gw ifc : String)
    (auto rej : Bool) (hne : rs ≠ [])
    (hattr : ∀ r ∈ rs, r.comment = c ∧ r.gateway = gw ∧ r.interface = ifc ∧
      r.auto = auto ∧ r.reject = rej)
    (hhost : ∀ r ∈ rs, r.host ≠ "" ∧ Routes.isIPv4OrCIDR r.host = true ∧
      Routes.normalizeHost r.host = .ok r.host)
    (hexcl : ¬ ((gw ≠ "") ↔ (ifc ≠ ""))) :
    Routes.ToYAML rs = Routes.singleGroupFile ⟨c, gw, ifc, auto, rej⟩ (rs.map Routes.Route.host) ∧
    Routes.FlattenToEntries (Routes.ToYAML rs) = .ok rs := by
  have hyaml : Routes.ToYAML rs =
      Routes.singleGroupFile ⟨c, gw, ifc, auto, rej⟩ (rs.map Routes.Route.host) := by
    refine Routes.toYAML_uniform rs ⟨c, gw, ifc, auto, rej⟩ hne (fun r hr => ?_)
    obtain ⟨h1, h2, h3, h4, h5⟩ := hattr r hr
    obtain ⟨hh1, hh2, _⟩ := hhost r hr
    constructor
    · unfold Routes.keyOf
      rw [h1, h2, h3, h4, h5]
    · intro hcon
      rcases hcon with hcon | hcon
      · exact hh1 hcon
      · exact hcon hh2
  refine ⟨hyaml, ?_⟩
  rw [hyaml]
  unfold Routes.singleGroupFile Routes.FlattenToEntries
  dsimp only
  rw [if_neg (by simp)]
  conv_lhs => rw [Routes.flattenGroups]
  rw [if_neg (by simp [List.map_eq_nil_iff, hne])]
  rw [if_neg hexcl]
  rw [Routes.flattenHosts_roundtrip _ rs hattr (fun r hr => (hhost r hr).2.2)]
  dsimp only [Except.bind, bind]
  rw [show Routes.flattenGroups [] = .ok [] from rfl]
  dsimp only
  rw [List.append_nil]

/-- Two canonical routes sharing the same attributes, for the C6
witness. -/
def c6Routes : List Routes.Route :=
  [{ host := "1.2.3.4", comment := "t", gateway := "10.0.0.1" },
   { host := "8.8.8.8", comment := "t", gateway := "10.0.0.1" }]

/-- C6 witness: grouping two concrete attribute-sharing routes gives one
group with both hosts, and flattening returns the original routes. -/
theorem group_flatten_roundtrip_witness :
    Routes.ToYAML c6Routes =
      Routes.singleGroupFile ⟨"t", "10.0.0.1", "", false, false⟩ ["1.2.3.4", "8.8.8.8"] ∧
    Routes.FlattenToEntries (Routes.ToYAML c6Routes) = .ok c6Routes := by
  have h := group_flatten_roundtrip c6Routes "t" "10.0.0.1" "" false false (by decide)
    (by decide) (by decide) (by decide)
  exact ⟨h.1, h.2⟩

namespace Go

lemma dropWhile_idem (p : Char → Bool) (l : List Char) :
    (l.dropWhile p).dropWhile p = l.dropWhile p := by
  induction l with
  | nil => rfl
  | cons c rest ih =>
    by_cases h : p c
    · rw [List.dropWhile_cons_of_pos h, ih]
    · rw [List.dropWhile_cons_of_neg h, List.dropWhile_cons_of_neg h]

lemma trimLeft_idem (l : List Char) : trimLeftList (trimLeftList l) = trimLeftList l := by
  unfold trimLeftList
  exact dropWhile_idem isSpace l

lemma trimRight_idem (l : List Char) : trimRightList (trimRightList l) = trimRightList l := by
  unfold trimRightList
  rw [List.reverse_reverse, dropWhile_idem]

lemma trimRight_prefix (l : List Char) : trimRightList l <+: l := by
  unfold trimRightList
  have h : l.reverse.dropWhile isSpace <:+ l.reverse := List.dropWhile_suffix isSpace
  rw [← List.reverse_prefix] at h
  simpa using h

lemma trimLeft_fix_head (l : List Char) (h : trimLeftList l = l) :
    ∀ c, l.head? = some c → isSpace c = false := by
  intro c hc
  cases l with
  | nil => exact absurd hc (by simp)
  | cons a rest =>
    have ha : a = c := by simpa using hc
    subst ha
    by_cases hs : isSpace a
    · exfalso
      unfold trimLeftList at h
      rw [List.dropWhile_cons_of_pos hs] at h
      have hlen := congrArg List.length h
      have hsfx : rest.dropWhile isSpace <:+ rest := List.dropWhile_suffix isSpace
      have hle := hsfx.length_le
      simp at hlen
      omega
    · simpa using hs

lemma trimLeft_of_trimRight (l : List Char) (h : trimLeftList l = l) :
    trimLeftList (trimRightList l) = trimRightList l := by
  cases hl : trimRightList l with
  | nil => rfl
  | cons a rest =>
    have hpre : (a :: rest : List Char) <+: l := hl ▸ trimRight_prefix l
    obtain ⟨t, ht⟩ := hpre
    have hhead : l.head? = some a := by rw [← ht]; rfl
    have hns := trimLeft_fix_head l h a hhead
    unfold trimLeftList
    rw [List.dropWhile_cons_of_neg (by simp [hns])]

lemma goTrimSpace_idem (s : String) : goTrimSpace (goTrimSpace s) = goTrimSpace s := by
  unfold goTrimSpace
  have hm : trimLeftList (trimLeftList s.data) = trimLeftList s.data := trimLeft_idem s.data
  have hn : trimLeftList (trimRightList (trimLeftList s.data)) =
      trimRightList (trimLeftList s.data) := trimLeft_of_trimRight _ hm
  show String.mk (trimRightList (trimLeftList (trimRightList (trimLeftList s.data)))) = _
  rw [hn, trimRight_idem]

lemma trim_of_no_space (s : String) (h : ∀ c ∈ s.data, isSpace c = false) :
    goTrimSpace s = s := by
  have hleft : trimLeftList s.data = s.data := by
    cases hd : s.data with
    | nil => rfl
    | cons a rest =>
      unfold trimLeftList
      rw [List.dropWhile_cons_of_neg (by simp [h a (by rw [hd]; exact List.mem_cons_self a rest)])]
  have hright : trimRightList s.data = s.data := by
    unfold trimRightList
    cases hd : s.data.reverse with
    | nil => simpa using congrArg List.reverse hd
    | cons a rest =>
      have ha : a ∈ s.data := by
        have : a ∈ s.data.reverse := by rw [hd]; exact List.mem_cons_self a rest
        simpa using this
      rw [List.dropWhile_cons_of_neg (by simp [h a ha]), ← hd]
      simp
  unfold goTrimSpace
  rw [hleft, hright]

end Go

namespace Go

lemma digit_no_space : ∀ k < 10, isSpace (Char.ofNat (48 + k)) = false := by decide

lemma natDecAux_no_space : ∀ (fuel n : Nat) (acc : List Char),
    (∀ c ∈ acc, isSpace c = false) → ∀ c ∈ natDecAux fuel n acc, isSpace c = false := by
  intro fuel
  induction fuel with
  | zero => intro n acc hacc; exact hacc
  | succ fuel ih =>
    intro n acc hacc c hc
    unfold natDecAux at hc
    dsimp only at hc
    by_cases h : n < 10
    · rw [if_pos h] at hc
      rcases List.mem_cons.mp hc with h1 | h1
      · rw [h1]; exact digit_no_space (n % 10) (Nat.mod_lt n (by omega))
      · exact hacc c h1
    · rw [if_neg h] at hc
      refine ih (n / 10) _ ?_ c hc
      intro x hx
      rcases List.mem_cons.mp hx with h1 | h1
      · rw [h1]; exact digit_no_space (n % 10) (Nat.mod_lt n (by omega))
      · exact hacc x h1

lemma natDecAux_length_ge (fuel : Nat) : ∀ (n : Nat) (acc : List Char),
    acc.length ≤ (natDecAux fuel n acc).length := by
  induction fuel with
  | zero => intro n acc; exact Nat.le_refl _
  | succ fuel ih =>
    intro n acc
    unfold natDecAux
    dsimp only
    by_cases h : n < 10
    · rw [if_pos h]; simp
    · rw [if_neg h]
      calc acc.length ≤ (Char.ofNat (48 + n % 10) :: acc).length := by simp
        _ ≤ _ := ih (n / 10) _

lemma natDec_ne_empty (n : Nat) : natDec n ≠ "" := by
  unfold natDec
  intro h
  have hd : natDecAux (n + 1) n [] = [] := congrArg String.data h
  have := natDecAux_length_ge n n (List.replicate 1 (Char.ofNat (48 + n % 10)))
  unfold natDecAux at hd
  dsimp only at hd
  by_cases hn : n < 10
  · rw [if_pos hn] at hd
    exact List.noConfusion hd
  · rw [if_neg hn] at hd
    have hge := natDecAux_length_ge n (n / 10) [Char.ofNat (48 + n % 10)]
    rw [hd] at hge
    simp at hge

lemma natDec_no_space (n : Nat) : ∀ c ∈ (natDec n).data, isSpace c = false := by
  unfold natDec
  exact natDecAux_no_space (n + 1) n [] (by intro c hc; exact absurd hc (by simp))

lemma data_append (a b : String) : (a ++ b).data = a.data ++ b.data := rfl

lemma ipv4String_clean (bs : List Nat) :
    goTrimSpace (ipv4String bs) = ipv4String bs ∧ ipv4String bs ≠ "" := by
  unfold ipv4String
  match bs with
  | [a, b, c, d] =>
    constructor
    · refine trim_of_no_space _ ?_
      intro ch hch
      simp only [data_append] at hch
      rcases List.mem_append.mp hch with h1 | h1
      · rcases List.mem_append.mp h1 with h2 | h2
        · rcases List.mem_append.mp h2 with h3 | h3
          · rcases List.mem_append.mp h3 with h4 | h4
            · rcases List.mem_append.mp h4 with h5 | h5
              · rcases List.mem_append.mp h5 with h6 | h6
                · exact natDec_no_space a ch h6
                · simp at h6; rw [h6]; decide
              · exact natDec_no_space b ch h5
            · simp at h4; rw [h4]; decide
          · exact natDec_no_space c ch h3
        · simp at h2; rw [h2]; decide
      · exact natDec_no_space d ch h1
    · intro h
      have : (natDec a ++ "." ++ natDec b ++ "." ++ natDec c ++ "." ++ natDec d).data = [] :=
        congrArg String.data h
      simp only [data_append, List.append_eq_nil] at this
      exact natDec_ne_empty d (String.ext this.2)
  | [] => exact ⟨(by decide : goTrimSpace "?" = "?"), (by decide : ("?" : String) ≠ "")⟩
  | [x] => exact ⟨(by decide : goTrimSpace "?" = "?"), (by decide : ("?" : String) ≠ "")⟩
  | [x, y] => exact ⟨(by decide : goTrimSpace "?" = "?"), (by decide : ("?" : String) ≠ "")⟩
  | [x, y, z] => exact ⟨(by decide : goTrimSpace "?" = "?"), (by decide : ("?" : String) ≠ "")⟩
  | x :: y :: z :: w :: v :: rest =>
    exact ⟨(by decide : goTrimSpace "?" = "?"), (by decide : ("?" : String) ≠ "")⟩

end Go

namespace Routes

/-- A string the resolver's merge loop considers settled: trimming is the
identity and it is non-empty. -/
def cleanStr (s : String) : Prop := Go.goTrimSpace s = s ∧ s ≠ ""

lemma dedupStrings_subset : ∀ (l acc : List String) (x : String),
    x ∈ dedupStrings l acc → x ∈ acc ∨ x ∈ l := by
  intro l
  induction l with
  | nil => intro acc x hx; exact Or.inl hx
  | cons s rest ih =>
    intro acc x hx
    unfold dedupStrings at hx
    by_cases h : s ∈ acc
    · rw [if_pos h] at hx
      rcases ih acc x hx with h1 | h1
      · exact Or.inl h1
      · exact Or.inr (List.mem_cons_of_mem s h1)
    · rw [if_neg h] at hx
      rcases ih (acc ++ [s]) x hx with h1 | h1
      · rcases List.mem_append.mp h1 with h2 | h2
        · exact Or.inl h2
        · simp at h2; exact Or.inr (h2 ▸ List.mem_cons_self s rest)
      · exact Or.inr (List.mem_cons_of_mem s h1)

lemma lookupIPv4_shape (R : String → Except String (List Go.GoIP)) (d : String)
    (ips : List String) (h : lookupIPv4 R d = .ok ips) :
    ∀ ip ∈ ips, ∃ bs, ip = Go.ipv4String bs := by
  intro ip hip
  unfold lookupIPv4 at h
  cases hp : Go.parseIP d with
  | some a =>
    rw [hp] at h
    dsimp only at h
    cases h4 : Go.to4 a with
    | some b4 =>
      rw [h4] at h
      dsimp only at h
      have : ips = [Go.ipv4String b4] := by
        have := h
        injection this with h'
        exact h'.symm
      rw [this] at hip
      simp at hip
      exact ⟨b4, hip⟩
    | none => rw [h4] at h; exact Except.noConfusion h
  | none =>
    rw [hp] at h
    dsimp only at h
    cases hr : R d with
    | error e => rw [hr] at h; exact Except.noConfusion h
    | ok addrs =>
      rw [hr] at h
      dsimp only at h
      injection h with h'
      rw [← h'] at hip
      rcases dedupStrings_subset _ [] ip hip with h1 | h1
      · exact absurd h1 (by simp)
      · obtain ⟨a, _, ha⟩ := List.mem_filterMap.mp h1
        cases h4 : Go.to4 a with
        | some b4 => rw [h4] at ha; simp at ha; exact ⟨b4, ha.symm⟩
        | none => rw [h4] at ha; exact Option.noConfusion ha

lemma cleanStr_of_shape (ip : String) (h : ∃ bs, ip = Go.ipv4String bs) : cleanStr ip := by
  obtain ⟨bs, hbs⟩ := h
  rw [hbs]
  exact ⟨(Go.ipv4String_clean bs).1, (Go.ipv4String_clean bs).2⟩

lemma mergeHosts_mem_mono : ∀ (hs acc : List String) (x : String),
    x ∈ acc → x ∈ mergeHosts hs acc := by
  intro hs
  induction hs with
  | nil => intro acc x hx; exact hx
  | cons h rest ih =>
    intro acc x hx
    unfold mergeHosts
    dsimp only
    by_cases h1 : Go.goTrimSpace h = ""
    · rw [if_pos h1]; exact ih acc x hx
    · rw [if_neg h1]
      by_cases h2 : Go.goTrimSpace h ∈ acc
      · rw [if_pos h2]; exact ih acc x hx
      · rw [if_neg h2]; exact ih _ x (List.mem_append.mpr (Or.inl hx))

lemma mergeHosts_elems : ∀ (hs acc : List String) (x : String),
    x ∈ mergeHosts hs acc → x ∈ acc ∨ cleanStr x := by
  intro hs
  induction hs with
  | nil => intro acc x hx; exact Or.inl hx
  | cons h rest ih =>
    intro acc x hx
    unfold mergeHosts at hx
    dsimp only at hx
    by_cases h1 : Go.goTrimSpace h = ""
    · rw [if_pos h1] at hx; exact ih acc x hx
    · rw [if_neg h1] at hx
      by_cases h2 : Go.goTrimSpace h ∈ acc
      · rw [if_pos h2] at hx; exact ih acc x hx
      · rw [if_neg h2] at hx
        rcases ih _ x hx with h3 | h3
        · rcases List.mem_append.mp h3 with h4 | h4
          · exact Or.inl h4
          · simp at h4
            exact Or.inr (h4 ▸ ⟨Go.goTrimSpace_idem h, h1⟩)
        · exact Or.inr h3

lemma mergeHosts_nodup : ∀ (hs acc : List String), acc.Nodup → (mergeHosts hs acc).Nodup := by
  intro hs
  induction hs with
  | nil => intro acc hacc; exact hacc
  | cons h rest ih =>
    intro acc hacc
    unfold mergeHosts
    dsimp only
    by_cases h1 : Go.goTrimSpace h = ""
    · rw [if_pos h1]; exact ih acc hacc
    · rw [if_neg h1]
      by_cases h2 : Go.goTrimSpace h ∈ acc
      · rw [if_pos h2]; exact ih acc hacc
      · rw [if_neg h2]
        refine ih _ ?_
        simpa [List.nodup_append] using ⟨hacc, h2⟩

lemma mergeHosts_fix : ∀ (hs acc : List String),
    (∀ x ∈ hs, cleanStr x) → hs.Nodup → (∀ x ∈ hs, x ∉ acc) →
    mergeHosts hs acc = acc ++ hs := by
  intro hs
  induction hs with
  | nil => intro acc _ _ _; simp [mergeHosts]
  | cons h rest ih =>
    intro acc hclean hnd hdis
    obtain ⟨ht, hne⟩ := hclean h (List.mem_cons_self h rest)
    unfold mergeHosts
    dsimp only
    rw [ht, if_neg hne, if_neg (hdis h (List.mem_cons_self h rest))]
    rw [ih (acc ++ [h]) (fun x hx => hclean x (List.mem_cons_of_mem h hx))
      (List.Nodup.of_cons hnd) ?_]
    · simp
    · intro x hx
      intro hmem
      rcases List.mem_append.mp hmem with h1 | h1
      · exact hdis x (List.mem_cons_of_mem h hx) h1
      · simp at h1
        rw [h1] at hx
        exact (List.nodup_cons.mp hnd).1 hx

lemma addIPs_stable : ∀ (ips merged : List String),
    (∀ ip ∈ ips, ip ∈ merged) → addIPs ips merged = (merged, 0) := by
  intro ips
  induction ips with
  | nil => intro merged _; rfl
  | cons ip rest ih =>
    intro merged h
    unfold addIPs
    rw [if_pos (h ip (List.mem_cons_self ip rest))]
    exact ih merged (fun x hx => h x (List.mem_cons_of_mem ip hx))

lemma addIPs_mem_mono : ∀ (ips merged : List String) (x : String),
    x ∈ merged → x ∈ (addIPs ips merged).1 := by
  intro ips
  induction ips with
  | nil => intro merged x hx; exact hx
  | cons ip rest ih =>
    intro merged x hx
    unfold addIPs
    by_cases h : ip ∈ merged
    · rw [if_pos h]; exact ih merged x hx
    · rw [if_neg h]
      exact ih _ x (List.mem_append.mpr (Or.inl hx))

lemma addIPs_adds : ∀ (ips merged : List String) (ip : String),
    ip ∈ ips → ip ∈ (addIPs ips merged).1 := by
  intro ips
  induction ips with
  | nil => intro merged ip hip; exact absurd hip (by simp)
  | cons i rest ih =>
    intro merged ip hip
    unfold addIPs
    rcases List.mem_cons.mp hip with h1 | h1
    · subst h1
      by_cases h : ip ∈ merged
      · rw [if_pos h]; exact addIPs_mem_mono rest merged ip h
      · rw [if_neg h]
        exact addIPs_mem_mono rest _ ip (List.mem_append.mpr (Or.inr (by simp)))
    · by_cases h : i ∈ merged
      · rw [if_pos h]; exact ih merged ip h1
      · rw [if_neg h]; exact ih _ ip h1

lemma addIPs_elems : ∀ (ips merged : List String) (x : String),
    x ∈ (addIPs ips merged).1 → x ∈ merged ∨ x ∈ ips := by
  intro ips
  induction ips with
  | nil => intro merged x hx; exact Or.inl hx
  | cons ip rest ih =>
    intro merged x hx
    unfold addIPs at hx
    by_cases h : ip ∈ merged
    · rw [if_pos h] at hx
      rcases ih merged x hx with h1 | h1
      · exact Or.inl h1
      · exact Or.inr (List.mem_cons_of_mem ip h1)
    · rw [if_neg h] at hx
      dsimp only at hx
      rcases ih _ x hx with h1 | h1
      · rcases List.mem_append.mp h1 with h2 | h2
        · exact Or.inl h2
        · simp at h2; exact Or.inr (h2 ▸ List.mem_cons_self ip rest)
      · exact Or.inr (List.mem_cons_of_mem ip h1)

lemma addIPs_nodup : ∀ (ips merged : List String),
    merged.Nodup → (addIPs ips merged).1.Nodup := by
  intro ips
  induction ips with
  | nil => intro merged h; exact h
  | cons ip rest ih =>
    intro merged h
    unfold addIPs
    by_cases h1 : ip ∈ merged
    · rw [if_pos h1]; exact ih merged h
    · rw [if_neg h1]
      dsimp only
      refine ih _ ?_
      simpa [List.nodup_append] using ⟨h, h1⟩

end Routes

namespace Routes

/-- The number of distinct (after trimming) domains a domain loop looks
up, given the already-seen set. -/
def uniqueDomCount : List String → List String → Nat
  | [], _ => 0
  | d :: rest, seen =>
    if Go.goTrimSpace d ∈ seen then uniqueDomCount rest seen
    else uniqueDomCount rest (seen ++ [Go.goTrimSpace d]) + 1

lemma uniqueDomCount_cons (d : String) (rest seen : List String) :
    uniqueDomCount (d :: rest) seen =
      if Go.goTrimSpace d ∈ seen then uniqueDomCount rest seen
      else uniqueDomCount rest (seen ++ [Go.goTrimSpace d]) + 1 := rfl

lemma resolveDomainList_post (R : String → Except String (List Go.GoIP)) (label : String) :
    ∀ (ds seenD merged : List String) (dc ic : Nat) (m : List String) (dc' ic' : Nat),
    resolveDomainList R label ds seenD merged dc ic = .ok (m, dc', ic') →
    (∀ x ∈ merged, x ∈ m) ∧
    (∀ x ∈ m, x ∈ merged ∨ cleanStr x) ∧
    (merged.Nodup → m.Nodup) ∧
    dc' = dc + uniqueDomCount ds seenD ∧
    (∀ d ∈ ds, Go.goTrimSpace d ∉ seenD →
      Go.goTrimSpace d ≠ "" ∧
      ∃ ips, lookupIPv4 R (Go.goTrimSpace d) = .ok ips ∧ ips ≠ [] ∧ ∀ ip ∈ ips, ip ∈ m) := by
  intro ds
  induction ds with
  | nil =>
    intro seenD merged dc ic m dc' ic' h
    unfold resolveDomainList at h
    injection h with h'
    have h1 : merged = m := congrArg Prod.fst h'
    have h2 : dc = dc' := congrArg (fun p => p.2.1) h'
    subst h1
    subst h2
    refine ⟨fun x hx => hx, fun x hx => Or.inl hx, fun h => h, by simp [uniqueDomCount], ?_⟩
    intro d hd
    exact absurd hd (by simp)
  | cons d rest ih =>
    intro seenD merged dc ic m dc' ic' h
    unfold resolveDomainList at h
    dsimp only at h
    by_cases hemp : Go.goTrimSpace d = ""
    · rw [if_pos hemp] at h; exact Except.noConfusion h
    rw [if_neg hemp] at h
    by_cases hseen : Go.goTrimSpace d ∈ seenD
    · rw [if_pos hseen] at h
      obtain ⟨p1, p2, p3, p4, p5⟩ := ih seenD merged dc ic m dc' ic' h
      refine ⟨p1, p2, p3, ?_, ?_⟩
      · rw [p4, uniqueDomCount_cons, if_pos hseen]
      · intro d' hd' hns
        rcases List.mem_cons.mp hd' with h1 | h1
        · subst h1; exact absurd hseen hns
        · exact p5 d' h1 hns
    rw [if_neg hseen] at h
    cases hlk : lookupIPv4 R (Go.goTrimSpace d) with
    | error e => rw [hlk] at h; exact Except.noConfusion h
    | ok ips =>
      rw [hlk] at h
      dsimp only at h
      by_cases hne : ips = []
      · rw [if_pos hne] at h; exact Except.noConfusion h
      rw [if_neg hne] at h
      obtain ⟨p1, p2, p3, p4, p5⟩ :=
        ih (seenD ++ [Go.goTrimSpace d]) (addIPs ips merged).1 (dc + 1)
          (ic + (addIPs ips merged).2) m dc' ic' h
      refine ⟨?_, ?_, ?_, ?_, ?_⟩
      · intro x hx
        exact p1 x (addIPs_mem_mono ips merged x hx)
      · intro x hx
        rcases p2 x hx with h1 | h1
        · rcases addIPs_elems ips merged x h1 with h2 | h2
          · exact Or.inl h2
          · exact Or.inr (cleanStr_of_shape x (lookupIPv4_shape R _ ips hlk x h2))
        · exact Or.inr h1
      · intro hnd
        exact p3 (addIPs_nodup ips merged hnd)
      · rw [p4, uniqueDomCount_cons, if_neg hseen]
        omega
      · intro d' hd' hns
        rcases List.mem_cons.mp hd' with h1 | h1
        · subst h1
          refine ⟨hemp, ips, hlk, hne, ?_⟩
          intro ip hip
          exact p1 ip (addIPs_adds ips merged ip hip)
        · by_cases hseen2 : Go.goTrimSpace d' ∈ seenD ++ [Go.goTrimSpace d]
          · have heq : Go.goTrimSpace d' = Go.goTrimSpace d := by
              rcases List.mem_append.mp hseen2 with h2 | h2
              · exact absurd h2 hns
              · simpa using h2
            rw [heq]
            refine ⟨hemp, ips, hlk, hne, ?_⟩
            intro ip hip
            exact p1 ip (addIPs_adds ips merged ip hip)
          · exact p5 d' h1 hseen2

lemma resolveDomainList_stable (R : String → Except String (List Go.GoIP)) (label : String) :
    ∀ (ds seenD M : List String) (dc ic : Nat),
    "" ∉ seenD →
    (∀ d ∈ ds, Go.goTrimSpace d ∉ seenD →
      Go.goTrimSpace d ≠ "" ∧
      ∃ ips, lookupIPv4 R (Go.goTrimSpace d) = .ok ips ∧ ips ≠ [] ∧ ∀ ip ∈ ips, ip ∈ M) →
    resolveDomainList R label ds seenD M dc ic = .ok (M, dc + uniqueDomCount ds seenD, ic) := by
  intro ds
  induction ds with
  | nil =>
    intro seenD M dc ic _ _
    simp [resolveDomainList, uniqueDomCount]
  | cons d rest ih =>
    intro seenD M dc ic hnil hcov
    unfold resolveDomainList
    dsimp only
    by_cases hseen : Go.goTrimSpace d ∈ seenD
    · have hemp : Go.goTrimSpace d ≠ "" := fun he => hnil (he ▸ hseen)
      rw [if_neg hemp, if_pos hseen,
        ih seenD M dc ic hnil (fun d' hd' => hcov d' (List.mem_cons_of_mem d hd')),
        uniqueDomCount_cons, if_pos hseen]
    · obtain ⟨hemp, ips, hlk, hne, hsub⟩ := hcov d (List.mem_cons_self d rest) hseen
      rw [if_neg hemp, if_neg hseen, hlk]
      dsimp only
      rw [if_neg hne, addIPs_stable ips M hsub]
      dsimp only
      have hnil' : "" ∉ seenD ++ [Go.goTrimSpace d] := by
        intro hc
        rcases List.mem_append.mp hc with h2 | h2
        · exact hnil h2
        · simp at h2; exact hemp h2.symm
      have hcov' : ∀ d' ∈ rest, Go.goTrimSpace d' ∉ seenD ++ [Go.goTrimSpace d] →
          Go.goTrimSpace d' ≠ "" ∧
          ∃ ips, lookupIPv4 R (Go.goTrimSpace d') = .ok ips ∧ ips ≠ [] ∧
            ∀ ip ∈ ips, ip ∈ M := by
        intro d' hd' hns
        exact hcov d' (List.mem_cons_of_mem d hd')
          (fun hc => hns (List.mem_append.mpr (Or.inl hc)))
      simp only [Nat.add_zero]
      rw [ih (seenD ++ [Go.goTrimSpace d]) M (dc + 1) ic hnil' hcov']
      rw [uniqueDomCount_cons, if_neg hseen]
      have harith : dc + 1 + uniqueDomCount rest (seenD ++ [Go.goTrimSpace d])
          = dc + (uniqueDomCount rest (seenD ++ [Go.goTrimSpace d]) + 1) := by omega
      rw [harith]

lemma resolveGroups_post (R : String → Except String (List Go.GoIP)) :
    ∀ (gs : List RouteGroup) (i a b c : Nat) (s' : ResolveSummary) (gs' : List RouteGroup),
    resolveGroups R gs i ⟨a, b, c⟩ = .ok (s', gs') →
    ∃ dg dd, s'.groups = a + dg ∧ s'.domains = b + dd ∧
      (∀ a' b' c' : Nat,
        resolveGroups R gs' i ⟨a', b', c'⟩ = .ok (⟨a' + dg, b' + dd, c'⟩, gs')) ∧
      gs'.map RouteGroup.domains = gs.map RouteGroup.domains := by
  intro gs
  induction gs with
  | nil =>
    intro i a b c s' gs' h
    unfold resolveGroups at h
    injection h with h'
    have h1 : s' = ⟨a, b, c⟩ := (congrArg Prod.fst h').symm
    have h2 : gs' = [] := (congrArg Prod.snd h').symm
    subst h1
    subst h2
    exact ⟨0, 0, by simp, by simp, fun a' b' c' => by simp [resolveGroups], by simp⟩
  | cons g rest ih =>
    intro i a b c s' gs' h
    unfold resolveGroups at h
    dsimp only at h
    by_cases hdom : g.domains = []
    · rw [if_pos hdom] at h
      cases hrec : resolveGroups R rest (i + 1) ⟨a, b, c⟩ with
      | error e => rw [hrec] at h; exact Except.noConfusion h
      | ok p =>
        obtain ⟨s1, gs1⟩ := p
        rw [hrec] at h
        dsimp only [Except.map] at h
        injection h with h'
        have h1 : s1 = s' := congrArg Prod.fst h'
        have h2 : g :: gs1 = gs' := congrArg Prod.snd h'
        subst h1
        subst h2
        obtain ⟨dg, dd, q1, q2, q3, q4⟩ := ih (i + 1) a b c s1 gs1 hrec
        refine ⟨dg, dd, q1, q2, ?_, ?_⟩
        · intro a' b' c'
          unfold resolveGroups
          dsimp only
          rw [if_pos hdom, q3 a' b' c']
          rfl
        · dsimp only [List.map]
          rw [q4]
    · rw [if_neg hdom] at h
      by_cases hexcl : (g.gateway = "") ↔ (g.interface = "")
      · rw [if_pos hexcl] at h
        exact Except.noConfusion h
      rw [if_neg hexcl] at h
      cases hdl : resolveDomainList R (groupLabel g i) g.domains [] (mergeHosts g.hosts []) 0 0 with
      | error e => rw [hdl] at h; exact Except.noConfusion h
      | ok t =>
        obtain ⟨m, dc, ic⟩ := t
        rw [hdl] at h
        dsimp only at h
        cases hrec : resolveGroups R rest (i + 1) ⟨a + 1, b + dc, c + ic⟩ with
        | error e => rw [hrec] at h; exact Except.noConfusion h
        | ok p =>
          obtain ⟨s1, gs1⟩ := p
          rw [hrec] at h
          dsimp only [Except.map] at h
          injection h with h'
          have h1 : s1 = s' := congrArg Prod.fst h'
          have h2 : { g with hosts := m } :: gs1 = gs' := congrArg Prod.snd h'
          subst h1
          subst h2
          obtain ⟨dg, dd, q1, q2, q3, q4⟩ := ih (i + 1) (a + 1) (b + dc) (c + ic) s1 gs1 hrec
          obtain ⟨p1, p2, p3, p4, p5⟩ :=
            resolveDomainList_post R (groupLabel g i) g.domains [] (mergeHosts g.hosts [])
              0 0 m dc ic hdl
          have hclean : ∀ x ∈ m, cleanStr x := by
            intro x hx
            rcases p2 x hx with h3 | h3
            · rcases mergeHosts_elems g.hosts [] x h3 with h4 | h4
              · exact absurd h4 (by simp)
              · exact h4
            · exact h3
          have hnodup : m.Nodup := p3 (mergeHosts_nodup g.hosts [] List.nodup_nil)
          have hfix : mergeHosts m [] = m := by
            rw [mergeHosts_fix m [] hclean hnodup (fun x _ => by simp)]
            simp
          have hsecond : resolveDomainList R (groupLabel g i) g.domains [] m 0 0
              = .ok (m, dc, 0) := by
            rw [resolveDomainList_stable R (groupLabel g i) g.domains [] m 0 0 (by simp)
              (fun d hd _ => p5 d hd (by simp))]
            rw [← p4]
          have hlabel : groupLabel { g with hosts := m } i = groupLabel g i := rfl
          refine ⟨dg + 1, dc + dd, ?_, ?_, ?_, ?_⟩
          · rw [q1]; omega
          · rw [q2]; omega
          · intro a' b' c'
            unfold resolveGroups
            dsimp only
            rw [if_neg hdom, if_neg hexcl, hfix, hlabel, hsecond]
            dsimp only
            rw [q3 (a' + 1) (b' + dc) (c' + 0)]
            dsimp only [Except.map]
            have e1 : a' + 1 + dg = a' + (dg + 1) := by omega
            have e2 : b' + dc + dd = b' + (dc + dd) := by omega
            have e3 : c' + 0 = c' := by omega
            rw [e1, e2, e3]
          · dsimp only [List.map]
            rw [q4]

end Routes

/-- C8: domain resolution is idempotent with respect to host-list
membership — a second run over the resolved file with unchanged DNS
answers succeeds, changes no group (so no duplicate hosts are added),
reports IPsAdded = 0, and never clears a group's domain list. -/
theorem resolve_idempotent (R : String → Except String (List Go.GoIP)) (rf : Routes.RoutesFile)
    (s1 : Routes.ResolveSummary) (rf1 : Routes.RoutesFile)
    (h : Routes.ResolveDomainsWithResolver R rf = .ok (s1, rf1)) :
    Routes.ResolveDomainsWithResolver R rf1 = .ok (⟨s1.groups, s1.domains, 0⟩, rf1) ∧
    rf1.routes.map Routes.RouteGroup.domains = rf.routes.map Routes.RouteGroup.domains := by
  unfold Routes.ResolveDomainsWithResolver at h ⊢
  by_cases hnil : rf.routes = []
  · rw [if_pos hnil] at h
    injection h with h'
    have h1 : s1 = ⟨0, 0, 0⟩ := (congrArg Prod.fst h').symm
    have h2 : rf1 = rf := (congrArg Prod.snd h').symm
    subst h1
    subst h2
    rw [if_pos hnil]
    exact ⟨rfl, rfl⟩
  · rw [if_neg hnil] at h
    cases hrg : Routes.resolveGroups R rf.routes 0 ⟨0, 0, 0⟩ with
    | error e => rw [hrg] at h; exact Except.noConfusion h
    | ok p =>
      obtain ⟨s', gs'⟩ := p
      rw [hrg] at h
      dsimp only [Except.map] at h
      injection h with h'
      have h1 : s' = s1 := congrArg Prod.fst h'
      have h2 : (⟨gs'⟩ : Routes.RoutesFile) = rf1 := congrArg Prod.snd h'
      subst h1
      obtain ⟨dg, dd, q1, q2, q3, q4⟩ := Routes.resolveGroups_post R rf.routes 0 0 0 0 s' gs' hrg
      have hr1 : rf1.routes = gs' := by rw [← h2]
      have hgs : gs' ≠ [] := by
        intro hc
        apply hnil
        have hq := q4
        rw [hc] at hq
        exact List.map_eq_nil_iff.mp hq.symm
      constructor
      · rw [hr1, if_neg hgs, q3 0 0 0]
        dsimp only [Except.map]
        rw [q1, q2, ← h2]
      · rw [hr1, q4]

/-- A one-group file with a single domain, for exercising resolution. -/
def c8File : Routes.RoutesFile :=
  ⟨[{ comment := "dns", gateway := "192.168.1.1", domains := ["example.com"] }]⟩

/-- A pure resolver answering every lookup with 1.2.3.4. -/
def c8Resolver : String → Except String (List Go.GoIP) :=
  fun _ => .ok [Go.GoIP.v4 [1, 2, 3, 4]]

/-- The file after one resolution run: the address merged into hosts. -/
def c8File1 : Routes.RoutesFile :=
  ⟨[{ comment := "dns", gateway := "192.168.1.1", hosts := ["1.2.3.4"],
      domains := ["example.com"] }]⟩

theorem resolve_idempotent_witness :
    Routes.ResolveDomainsWithResolver c8Resolver c8File = .ok (⟨1, 1, 1⟩, c8File1) ∧
    Routes.ResolveDomainsWithResolver c8Resolver c8File1 = .ok (⟨1, 1, 0⟩, c8File1) ∧
    c8File1.routes.map Routes.RouteGroup.domains = c8File.routes.map Routes.RouteGroup.domains :=
  ⟨by decide,
   (resolve_idempotent c8Resolver c8File ⟨1, 1, 1⟩ c8File1 (by decide)).1,
   (resolve_idempotent c8Resolver c8File ⟨1, 1, 1⟩ c8File1 (by decide)).2⟩

